import Mathlib

/-!
# Verification of the fulfil-python-api RPC/model-proxy layer

Shallow embedding, in Lean 4, of the core of the `fulfil_client` Python
package (files `fulfil_client/client.py`, `fulfil_client/model.py`,
`fulfil_client/serialization.py`, `fulfil_client/exceptions.py`), together
with theorems settling the frozen claims C1..C10 about it.

Conventions used throughout:
* Python dictionaries are embedded as insertion-ordered association lists
  with unique keys (`dictLookup` / `dictSet`).
* Python values appearing in record value containers are embedded as the
  inductive `PyVal`; Python `==` on them is structural equality.
* Fallible Python code (code that can raise) is embedded with `Except`.
* Remote calls are not performed; the remote collection is passed in as an
  explicit list of rows and emitted side effects are collected in traces.
-/

namespace Fulfil

/-- Embedded Python values as they appear in record value containers and
decoded JSON responses.  Python `==` between such values is structural.
Python lists are embedded as right-nested cons cells: the list `[a, b]`
is `listCons a (listCons b listNil)`. -/
inductive PyVal where
  | none
  | bool (b : Bool)
  | int (n : Int)
  | str (s : String)
  | listNil
  | listCons (hd tl : PyVal)
  deriving DecidableEq, Repr

/-- Python truthiness of an embedded value (`bool(v)`). -/
def PyVal.truthy : PyVal → Bool
  | .none => false
  | .bool b => b
  | .int n => n != 0
  | .str s => s ≠ ""
  | .listNil => false
  | .listCons _ _ => true

/-- `d[k]` lookup on an embedded Python dict (association list, unique
keys): `Option.none` models a missing key. -/
def dictLookup (es : List (String × PyVal)) (k : String) : Option PyVal :=
  match es with
  | [] => Option.none
  | (k', v) :: rest => if k' = k then some v else dictLookup rest k

/-- `d[k] = v` on an embedded Python dict: replaces the value of an
existing key in place, otherwise appends the new key at the end
(Python dicts preserve insertion order). -/
def dictSet (es : List (String × PyVal)) (k : String) (v : PyVal) :
    List (String × PyVal) :=
  match es with
  | [] => [(k, v)]
  | (k', v') :: rest =>
      if k' = k then (k, v) :: rest else (k', v') :: dictSet rest k v

/-- `fulfil_client/model.py`, class `ModificationTrackingDict`: a dict that
also records, in `changes`, the set of keys whose value was set to
something different from (or absent before) the prior value. -/
structure ModificationTrackingDict where
  entries : List (String × PyVal)
  changes : List String
  deriving DecidableEq

namespace ModificationTrackingDict

/-- `ModificationTrackingDict.__init__`: `self.changes = set([])` runs
first and `dict.__init__` populates the entries without going through
`__setitem__`, so a freshly constructed container has an empty change
set. -/
def ofDict (es : List (String × PyVal)) : ModificationTrackingDict :=
  { entries := es, changes := [] }

/-- `ModificationTrackingDict.__setitem__`:
`if key not in self or self[key] != val: self.changes.add(key)` followed by
`dict.__setitem__(self, key, val)`.  The guard
`key not in self or self[key] != val` is exactly
`dictLookup entries key ≠ some val`. -/
def setItem (d : ModificationTrackingDict) (k : String) (v : PyVal) :
    ModificationTrackingDict :=
  { entries := dictSet d.entries k v,
    changes := if dictLookup d.entries k = some v then d.changes
               else d.changes.insert k }

/-- `ModificationTrackingDict.update`: iterates over the items of the
argument and assigns each through `self[k] = v` (i.e. `__setitem__`). -/
def update (d : ModificationTrackingDict) (items : List (String × PyVal)) :
    ModificationTrackingDict :=
  items.foldl (fun acc kv => acc.setItem kv.1 kv.2) d

/-- Python `len(d)` on the container: number of stored keys. -/
def size (d : ModificationTrackingDict) : Nat := d.entries.length

end ModificationTrackingDict

/-- Python `==` between two dicts: same keys with equal values
(the `changes` attribute of `ModificationTrackingDict` is not part of
`dict.__eq__`). -/
def dictPyEq (a b : List (String × PyVal)) : Bool :=
  (a.all fun kv => dictLookup b kv.1 = some kv.2) &&
  (b.all fun kv => dictLookup a kv.1 = some kv.2)

/-- Class-level configuration of a declarative record class
(`fulfil_client/model.py`, class `Model` plus `model_base`): the remote
model name, the registered field names (`tuple(cls._fields)`) and whether
a cache backend is configured. -/
structure ModelClass where
  modelName : String
  fieldNames : List String
  hasCacheBackend : Bool

/-- A declarative record instance (`model.py`, class `Model`): its class's
model name and its change-tracking value container `_values`. -/
structure RecordInst where
  modelName : String
  values : ModificationTrackingDict

namespace RecordInst

/-- The `id = IntType()` descriptor read (`BaseType.__get__`):
`instance._values.get('id', None)` — the raw stored value, no cast. -/
def idVal (r : RecordInst) : PyVal :=
  (dictLookup r.values.entries "id").getD PyVal.none

/-- `Model.has_changed` (model.py lines 654-657):
`return len(self._values) > 0` — the number of stored values, not the
dirty set. -/
def has_changed (r : RecordInst) : Bool := 0 < r.values.size

/-- `Model.changes` (model.py lines 640-648): the dict
`{field_name: self._values[field_name] for field_name in
self._values.changes}` of dirty keys with their current values. -/
def changesDict (r : RecordInst) : List (String × PyVal) :=
  r.values.changes.map
    fun k => (k, (dictLookup r.values.entries k).getD PyVal.none)

/-- `Model.__eq__` (model.py lines 710-724), for `other` not `None`:
different model name ⇒ `False`; a truthy own id with a differing other id
⇒ `False`; a falsy own id with differing `_values` dicts ⇒ `False`;
otherwise `True`. -/
def pyEq (self other : RecordInst) : Bool :=
  if other.modelName ≠ self.modelName then false
  else if self.idVal.truthy && (other.idVal ≠ self.idVal) then false
  else if (!self.idVal.truthy) && !dictPyEq self.values.entries other.values.entries
    then false
  else true

end RecordInst

/-- A remote RPC operation issued by the record layer, collected in traces
instead of being sent over HTTP. -/
inductive RpcOp where
  | write (ids : List PyVal) (fieldVals : List (String × PyVal))
  | create (valuesList : List (List (String × PyVal)))
  | readRows (ids : List PyVal) (fields : List String)
  | cacheDelete (id : PyVal)
  deriving DecidableEq

/-- Exceptions raised inside the model layer. -/
inductive ModelExc where
  | noResultFound
  | multipleResultsFound
  | assertionError (msg : String)
  deriving DecidableEq

/-- `Model.refresh` (model.py lines 685-695): invalidate the cache entry
(a cache delete, only when a backend is configured), assert the id is
truthy, then re-read all class fields and replace the value container
wholesale with a fresh `ModificationTrackingDict` (empty change set).
The server's row for the read is passed in as `serverRow`. -/
def modelRefresh (cls : ModelClass) (r : RecordInst)
    (serverRow : List (String × PyVal)) :
    Except ModelExc (RecordInst × List RpcOp) :=
  let cacheOps := if cls.hasCacheBackend then [RpcOp.cacheDelete r.idVal] else []
  if !r.idVal.truthy then .error (.assertionError "Cannot refresh unsaved record")
  else
    .ok ({ r with values := ModificationTrackingDict.ofDict serverRow },
         cacheOps ++ [RpcOp.readRows [r.idVal] cls.fieldNames])

/-- `Model.save` (model.py lines 697-708): with a truthy id, issue one
`write` of the dirty fields only when `self.changes` is non-empty;
otherwise issue one `create` from the full `_values` and adopt the
returned id (stored through the `IntType` descriptor).  Either way,
conclude with `self.refresh()`.  The id returned by the remote `create`
and the row returned by the refresh read are passed in explicitly. -/
def modelSave (cls : ModelClass) (r : RecordInst) (createdId : Int)
    (serverRow : List (String × PyVal)) :
    Except ModelExc (RecordInst × List RpcOp) :=
  let step :=
    if r.idVal.truthy then
      if r.changesDict ≠ [] then (r, [RpcOp.write [r.idVal] r.changesDict])
      else (r, [])
    else
      ({ r with values := r.values.setItem "id" (.int createdId) },
       [RpcOp.create [r.values.entries]])
  match modelRefresh cls step.1 serverRow with
  | .error e => .error e
  | .ok (r2, ops2) => .ok (r2, step.2 ++ ops2)

/-- The remote `search_read` RPC, modelled over the ordered list of rows
matching the query's domain: return the slice starting at `offset`
(Python `None` ⇒ 0) of at most `limit` rows (Python `None` ⇒ no bound).
Called positionally in model.py as
`search_read(domain, offset, limit, order, fields)`. -/
def searchRead (rows : List α) (off : Option Nat) (lim : Option Nat) : List α :=
  match lim with
  | Option.none => rows.drop (off.getD 0)
  | some l => (rows.drop (off.getD 0)).take l

/-- `Query.one` (model.py lines 453-470): calls
`search_read(self.domain, 2, None, self._order_by, self.fields)` — the
literal `2` lands in the `offset` position and `None` in the `limit`
position (compare `Query.first`, which passes `(None, 1)`).  Then:
empty result ⇒ `NoResultFound`; more than one ⇒ `MultipleResultsFound`;
otherwise the single fetched row. -/
def queryOne (rows : List α) : Except ModelExc α :=
  match searchRead rows (some 2) Option.none with
  | [] => .error .noResultFound
  | [x] => .ok x
  | _ :: _ :: _ => .error .multipleResultsFound

/-- The intended `Query.one` as the spec states it: fetch at most two
rows to distinguish zero/one/many matches (what
`search_read(self.domain, None, 2, ...)` would return). -/
def queryOneSpec (rows : List α) : Except ModelExc α :=
  match searchRead rows Option.none (some 2) with
  | [] => .error .noResultFound
  | [x] => .ok x
  | _ :: _ :: _ => .error .multipleResultsFound

/-- Calls issued by `Model.search_read_all`: one optional `search_count`
plus a `search_read` per page (with its offset and page size). -/
inductive SraCall where
  | countCall
  | readCall (off lim : Nat)
  deriving DecidableEq

/-- Python `range(start, stop, step)` for a positive step (the degenerate
`step = 0`, which Python rejects with `ValueError`, yields `[]` here). -/
def pyRange (start stop step : Nat) : List Nat :=
  if _h : step = 0 ∨ stop ≤ start then [] else start :: pyRange (start + step) stop step
termination_by stop - start
decreasing_by omega

/-- The `for page_offset in range(offset, end, batch_size)` loop body of
`Model.search_read_all` (client.py lines 414-420).  The page offsets were
fixed up front by `range` (step = the original batch size), while the
`batch_size` local is threaded through and shrunk in place on the final
page (`if page_offset + batch_size > end: batch_size = end - page_offset`). -/
def sraPages (rows : List α) (endIdx : Nat) :
    List Nat → Nat → List SraCall × List α
  | [], _ => ([], [])
  | p :: ps, bs =>
      let bs' := if endIdx < p + bs then endIdx - p else bs
      let rest := sraPages rows endIdx ps bs'
      (SraCall.readCall p bs' :: rest.1,
       searchRead rows (some p) (some bs') ++ rest.2)

/-- `Model.search_read_all` (client.py lines 392-420): when `limit` is
`None`, first issue one `search_count` call and set
`end = record_count + offset`; otherwise `end = limit + offset`.  Then
page through `range(offset, end, batch_size)` yielding every row of every
`search_read` page.  Returns the trace of calls and the yielded rows. -/
def searchReadAll (rows : List α) (batchSize off : Nat) (lim : Option Nat) :
    List SraCall × List α :=
  match lim with
  | Option.none =>
      let endIdx := rows.length + off
      let pages := sraPages rows endIdx (pyRange off endIdx batchSize) batchSize
      (SraCall.countCall :: pages.1, pages.2)
  | some l =>
      let endIdx := l + off
      let pages := sraPages rows endIdx (pyRange off endIdx batchSize) batchSize
      (pages.1, pages.2)

/-- Is an `RpcOp` a remote `write`? -/
def RpcOp.isWrite : RpcOp → Bool
  | .write _ _ => true
  | _ => false

/-- Is an `RpcOp` a remote `create`? -/
def RpcOp.isCreate : RpcOp → Bool
  | .create _ => true
  | _ => false

/-- Is an `RpcOp` a remote `read`? -/
def RpcOp.isRead : RpcOp → Bool
  | .readRows _ _ => true
  | _ => false

/-- A domain predicate triple `(field, operator, value)` as appended by
`Query.filter_by` / passed to `Query.filter_by_domain`. -/
abbrev DomainPred := String × String × PyVal

/-- A heap of Python list objects: `Query.domain` always holds a
reference into this store, so that in-place mutation (the `append` in
`filter_by`) and the list copies made by `Query.__copy__` keep Python's
aliasing behaviour.  Allocation appends at the end; `storeGet` of an
unallocated reference returns `[]`. -/
abbrev ListStore := List (List DomainPred)

/-- Dereference a list object. -/
def storeGet (σ : ListStore) (ref : Nat) : List DomainPred := σ.getD ref []

/-- In-place mutation of a list object. -/
def storeSet (σ : ListStore) (ref : Nat) (l : List DomainPred) : ListStore :=
  σ.set ref l

/-- Allocate a fresh list object, returning the new store and its
reference. -/
def storeAlloc (σ : ListStore) (l : List DomainPred) : ListStore × Nat :=
  (σ ++ [l], σ.length)

/-- `Query` builder state (model.py lines 293-332): the domain is a heap
reference (a Python list object); `_limit`, `_offset`, `_order_by` and
`active_only` are scalars or immutable/never-mutated values, so value
semantics is observationally exact for them (`__copy__` duplicates
`_order_by` with `[:]` and the only mutation ever applied to it is
rebinding). -/
structure QueryObj where
  domainRef : Nat
  limitQ : Option Nat
  offsetQ : Option Nat
  orderByQ : Option (List PyVal)
  activeOnly : Bool
  deriving DecidableEq

/-- `Query.__copy__` (model.py lines 314-332): build a new query sharing
the bound model and instance class, copy the scalar fields and duplicate
the `domain` list (`newone.domain = self.domain[:]`) into a fresh list
object. -/
def queryCopy (σ : ListStore) (q : QueryObj) : QueryObj × ListStore :=
  let alloc := storeAlloc σ (storeGet σ q.domainRef)
  ({ q with domainRef := alloc.2 }, alloc.1)

/-- `Query.filter_by` (model.py lines 388-398): copy the query, then
append one `(field, '=', value)` triple per keyword argument onto the
copy's domain list, in place. -/
def queryFilterBy (σ : ListStore) (q : QueryObj)
    (kwargs : List (String × PyVal)) : QueryObj × ListStore :=
  let c := queryCopy σ q
  (c.1,
   storeSet c.2 c.1.domainRef
     (storeGet c.2 c.1.domainRef ++ kwargs.map fun kv => (kv.1, "=", kv.2)))

/-- `Query.filter_by_domain` (model.py lines 400-406): copy the query,
then rebind the copy's `domain` attribute to the caller-supplied list
(modelled as a fresh list object holding the given contents; the
duplicated list made by `__copy__` is abandoned). -/
def queryFilterByDomain (σ : ListStore) (q : QueryObj)
    (domain : List DomainPred) : QueryObj × ListStore :=
  let c := queryCopy σ q
  let alloc := storeAlloc c.2 domain
  ({ c.1 with domainRef := alloc.2 }, alloc.1)

/-- `Query.limit` (model.py lines 437-443): copy, then set `_limit`. -/
def queryLimit (σ : ListStore) (q : QueryObj) (l : Nat) : QueryObj × ListStore :=
  let c := queryCopy σ q
  ({ c.1 with limitQ := some l }, c.2)

/-- `Query.offset` (model.py lines 445-451): copy, then set `_offset`. -/
def queryOffset (σ : ListStore) (q : QueryObj) (o : Nat) :
    QueryObj × ListStore :=
  let c := queryCopy σ q
  ({ c.1 with offsetQ := some o }, c.2)

/-- `Query.order_by` (model.py lines 472-482): copy, then rebind
`_order_by` to the criterion tuple. -/
def queryOrderBy (σ : ListStore) (q : QueryObj) (criterion : List PyVal) :
    QueryObj × ListStore :=
  let c := queryCopy σ q
  ({ c.1 with orderByQ := some criterion }, c.2)

/-- `Query.show_active_only` (model.py lines 380-386): copy, then set
`active_only`. -/
def queryShowActiveOnly (σ : ListStore) (q : QueryObj) (state : Bool) :
    QueryObj × ListStore :=
  let c := queryCopy σ q
  ({ c.1 with activeOnly := state }, c.2)

/-- The observable domain filter of a query: the contents of its domain
list object. -/
def queryDomain (σ : ListStore) (q : QueryObj) : List DomainPred :=
  storeGet σ q.domainRef

/-- The decoded JSON body of an error response, as read by
`json_response` (client.py lines 22-59): the optional `type`, `message`
and `code` fields of `loads(rv.text)`. -/
structure ErrorBody where
  typeField : Option String
  message : Option PyVal
  code : Option PyVal
  deriving DecidableEq

/-- An arbitrary Python object carried as an exception payload: the raw
response text, the whole decoded body, or one extracted field. -/
inductive PyObj where
  | ofStr (s : String)
  | ofBody (b : ErrorBody)
  | ofVal (v : PyVal)
  deriving DecidableEq

/-- The exception taxonomy of `fulfil_client/exceptions.py`:
`UserError`/`AuthenticationError` are subclasses of `ClientError`,
`ServerError` optionally carries the `X-Sentry-ID` incident header. -/
inductive HttpErr where
  | userError (message : Option PyVal) (code : Option PyVal)
  | clientError (message : PyObj) (code : Nat)
  | authenticationError (message : PyObj) (code : Nat)
  | serverError (message : String) (code : Nat) (sentryId : Option String)
  deriving DecidableEq

/-- An HTTP response as observed by `json_response`: the status code, the
raw body `rv.text`, the decoded body `loads(rv.text)` in its two views
(the successful payload, and the error-object fields used by the error
branches), whether the `Content-Type` header equals `application/json`,
and the optional `X-Sentry-ID` header. -/
structure HttpResponse where
  status : Nat
  text : String
  decodedBody : PyVal
  decodedErr : ErrorBody
  contentTypeJson : Bool
  sentryId : Option String

/-- `json_response` (client.py lines 22-59): 200 decodes the body; 400
raises `UserError` when the decoded body's `type` is `'UserError'` and a
`ClientError` carrying the whole decoded body otherwise; 401 raises
`AuthenticationError`; 402-499 raises `ClientError` with the decoded
body's `message` (when the content type is JSON and the field is
present) or the raw text; every other non-200 status (which includes all
of 5xx) raises `ServerError` with the raw text, the status and the
`X-Sentry-ID` header. -/
def json_response (rv : HttpResponse) : Except HttpErr PyVal :=
  if rv.status ≠ 200 then
    if rv.status = 400 then
      if rv.decodedErr.typeField = some "UserError" then
        .error (.userError rv.decodedErr.message rv.decodedErr.code)
      else
        .error (.clientError (.ofBody rv.decodedErr) rv.status)
    else if rv.status = 401 then
      .error (.authenticationError (.ofBody rv.decodedErr) rv.status)
    else if 402 ≤ rv.status ∧ rv.status < 500 then
      .error (.clientError
        (if rv.contentTypeJson then
          match rv.decodedErr.message with
          | some m => PyObj.ofVal m
          | Option.none => PyObj.ofStr rv.text
         else PyObj.ofStr rv.text)
        rv.status)
    else
      .error (.serverError rv.text rv.status rv.sentryId)
  else
    .ok rv.decodedBody

/-- The state of an `AsyncResult` handle (client.py lines 526-627): the
`state` attribute is whatever string the server last reported (initially
`'PENDING'`) plus the adopted `result`. -/
structure AsyncResultSt where
  state : String
  result : Option PyVal
  deriving DecidableEq

/-- The single task entry unpacked from `_fetch_result()['tasks']`: its
optional `error`, `state` and `result` keys. -/
structure TaskResponse where
  errorField : Option PyVal
  stateField : Option String
  resultField : Option PyVal
  deriving DecidableEq

/-- Exceptions surfacing from `AsyncResult.refresh_if_needed`. -/
inductive AsyncExc where
  | serverError (message : PyVal) (code : Nat) (sentryId : Option String)
  | typeErr (detail : String)
  | keyErr (key : String)
  deriving DecidableEq

/-- `AsyncResult.refresh_if_needed` (client.py lines 574-592): poll only
in state PENDING or STARTED (the returned flag records whether the one
`_fetch_result` poll was issued).  When the response carries an `error`
key, the code executes `self.state == self.FAILURE` — a comparison, not
an assignment, so the state is left unchanged — and then evaluates
`ServerError(response['error'])`, which omits the required `code`
argument of `ServerError.__init__(message, code, sentry_id=None)`
(exceptions.py lines 21-23), so Python raises `TypeError` instead of the
intended `ServerError`.  Without an `error` key, the reported `state`
and `result` are adopted when present (`self.state = response['state']`
runs first, so a missing `result` key raises `KeyError` after the state
was already adopted).  Returns (polled?, post-state of the handle,
raised exception if any). -/
def refresh_if_needed (a : AsyncResultSt) (resp : TaskResponse) :
    Bool × AsyncResultSt × Option AsyncExc :=
  if a.state = "PENDING" ∨ a.state = "STARTED" then
    (true,
      if resp.errorField.isSome then
        (a, some (.typeErr
          "__init__() missing 1 required positional argument: code"))
      else
        match resp.stateField, resp.resultField with
        | some s, some r => ({ state := s, result := some r }, Option.none)
        | some s, Option.none => ({ a with state := s }, some (.keyErr "result"))
        | Option.none, _ => (a, Option.none))
  else (false, a, Option.none)

/-! ### Typed Codec (`fulfil_client/serialization.py`)

The codec is embedded down to the strings it produces: the formatters of
the Python standard library (`datetime.isoformat`, `str(Decimal)`,
`base64.encodestring`) and of `isodate` (`duration_isoformat`) are
reproduced character by character, as are the parsers the decoders call
(`isodate.parse_date` / `parse_time` / `parse_datetime` /
`parse_duration`, `Decimal(str)`, `base64.decodestring`).  The parsers
are modelled on the grammar the encoders can emit (the parsers accept a
wider language — e.g. week/year/month duration components, commas as
decimal separators — that never round-trips through this encoder). -/

/-- The character of a decimal digit (`'0' + d`). -/
def digitChar (d : Nat) : Char := Char.ofNat (48 + d)

/-- The value of a decimal digit character. -/
def charDigit (c : Char) : Nat := c.toNat - 48

/-- Python `'%d' % n`: the shortest decimal representation. -/
def natRepr (n : Nat) : List Char :=
  if n = 0 then ['0'] else ((Nat.digits 10 n).map digitChar).reverse

/-- Python `'%0*d' % (w, n)`: zero-padded to at least `w` characters. -/
def padNum (w n : Nat) : List Char :=
  List.replicate (w - (natRepr n).length) '0' ++ natRepr n

/-- The value of a string of decimal digit characters (most significant
first). -/
def digitsVal (ds : List Char) : Nat :=
  ds.foldl (fun acc c => 10 * acc + charDigit c) 0

/-- Split off the maximal leading run of decimal digits. -/
def spanDigits (s : List Char) : List Char × List Char :=
  (s.takeWhile Char.isDigit, s.dropWhile Char.isDigit)

/-- `datetime.date.isoformat()`: `YYYY-MM-DD`. -/
def isoDate (y m d : Nat) : List Char :=
  padNum 4 y ++ '-' :: padNum 2 m ++ '-' :: padNum 2 d

/-- `datetime.time.isoformat()`: `HH:MM:SS`, extended with `.ffffff`
exactly when the microsecond component is non-zero (timespec `'auto'`;
naive times, no UTC offset suffix). -/
def isoTime (h mi s us : Nat) : List Char :=
  padNum 2 h ++ ':' :: padNum 2 mi ++ ':' :: padNum 2 s ++
    (if us = 0 then [] else '.' :: padNum 6 us)

/-- `datetime.datetime.isoformat()`: date, `'T'`, time (naive). -/
def isoDatetime (y mo d h mi s us : Nat) : List Char :=
  isoDate y mo d ++ 'T' :: isoTime h mi s us

/-- `isodate.parse_date` on the extended calendar format
`[0-9]{4}-[0-9]{2}-[0-9]{2}` (the only shape this encoder emits). -/
def parseIsoDate (s : List Char) : Option (Nat × Nat × Nat) :=
  let (ys, r1) := spanDigits s
  match r1 with
  | '-' :: r2 =>
      let (ms, r3) := spanDigits r2
      (match r3 with
       | '-' :: r4 =>
           let (ds, r5) := spanDigits r4
           if ys.length = 4 ∧ ms.length = 2 ∧ ds.length = 2 ∧ r5 = [] then
             some (digitsVal ys, digitsVal ms, digitsVal ds)
           else Option.none
       | _ => Option.none)
  | _ => Option.none

/-- Scale a fractional-digit run (at most six digits, as emitted by the
formatters) to microseconds.  Longer fractions go through Python float
conversion, which this model does not cover. -/
def fracUsecs (fs : List Char) : Option Nat :=
  if fs.length ≤ 6 ∧ fs.all Char.isDigit then
    some (digitsVal fs * 10 ^ (6 - fs.length))
  else Option.none

/-- `isodate.parse_time` on the extended format
`[0-9]{2}:[0-9]{2}:[0-9]{2}[.<digits>]`. -/
def parseIsoTime (s : List Char) : Option (Nat × Nat × Nat × Nat) :=
  let (hs, r1) := spanDigits s
  match r1 with
  | ':' :: r2 =>
      let (ms, r3) := spanDigits r2
      (match r3 with
       | ':' :: r4 =>
           let (ss, r5) := spanDigits r4
           if hs.length = 2 ∧ ms.length = 2 ∧ ss.length = 2 then
             match r5 with
             | [] => some (digitsVal hs, digitsVal ms, digitsVal ss, 0)
             | '.' :: r6 =>
                 let (fs, r7) := spanDigits r6
                 if fs ≠ [] ∧ r7 = [] then
                   match fracUsecs fs with
                   | some us =>
                       some (digitsVal hs, digitsVal ms, digitsVal ss, us)
                   | Option.none => Option.none
                 else Option.none
             | _ => Option.none
           else Option.none
       | _ => Option.none)
  | _ => Option.none

/-- `isodate.parse_datetime`: split on the mandatory `'T'` separator,
parse the calendar date on the left and the time on the right. -/
def parseIsoDatetime (s : List Char) :
    Option (Nat × Nat × Nat × Nat × Nat × Nat × Nat) :=
  let (ys, r1) := spanDigits s
  match r1 with
  | '-' :: r2 =>
      let (ms, r3) := spanDigits r2
      (match r3 with
       | '-' :: r4 =>
           let (ds, r5) := spanDigits r4
           (match r5 with
            | 'T' :: timePart =>
                if ys.length = 4 ∧ ms.length = 2 ∧ ds.length = 2 then
                  match parseIsoTime timePart with
                  | some (h, mi, sec, us) =>
                      some (digitsVal ys, digitsVal ms, digitsVal ds,
                        h, mi, sec, us)
                  | Option.none => Option.none
                else Option.none
            | _ => Option.none)
       | _ => Option.none)
  | _ => Option.none

/-- A finite Python `Decimal` as exposed by `as_tuple()`: sign, the
coefficient digits (most significant first; no leading zero except for
the single-digit coefficient `[0]`), and the exponent.  Special values
(NaN, infinities) are outside this model. -/
structure PyDecimal where
  neg : Bool
  digits : List Nat
  exp : Int
  deriving DecidableEq, Repr

/-- The digit characters of a decimal coefficient. -/
def decimalDigitsChars (ds : List Nat) : List Char := ds.map digitChar

/-- `str(Decimal)` — the `to-scientific-string` of the decimal
specification as implemented by CPython: positional notation when
`exp <= 0` and the adjusted exponent is at least `-6`, scientific
notation (`dE±adj` or `d.ddE±adj`) otherwise. -/
def decimalStr (d : PyDecimal) : List Char :=
  let len : Int := d.digits.length
  let adjusted : Int := d.exp + len - 1
  let core :=
    if d.exp ≤ 0 ∧ -6 ≤ adjusted then
      if d.exp = 0 then decimalDigitsChars d.digits
      else if 0 ≤ adjusted then
        decimalDigitsChars (d.digits.take (adjusted.toNat + 1)) ++
          '.' :: decimalDigitsChars (d.digits.drop (adjusted.toNat + 1))
      else
        '0' :: '.' ::
          (List.replicate (-adjusted - 1).toNat '0' ++ decimalDigitsChars d.digits)
    else
      (match d.digits with
       | [] => []
       | [d0] => [digitChar d0]
       | d0 :: rest => digitChar d0 :: '.' :: decimalDigitsChars rest) ++
        'E' :: (if adjusted < 0 then '-' :: natRepr (-adjusted).toNat
                else '+' :: natRepr adjusted.toNat)
  if d.neg then '-' :: core else core

/-- Coefficient normalisation performed by the `Decimal` string parser:
leading zeros are dropped, an all-zero coefficient collapses to `[0]`. -/
def normCoeff (ds : List Nat) : List Nat :=
  match ds.dropWhile (· = 0) with
  | [] => [0]
  | l => l

/-- The optional leading sign of a decimal literal or an ISO duration
(`(?P<sign>[+-])?`). -/
def splitSign (s : List Char) : Bool × List Char :=
  match s with
  | '-' :: t => (true, t)
  | '+' :: t => (false, t)
  | t => (false, t)

/-- An optionally signed decimal integer (the exponent of a decimal
literal). -/
def parseSignedNat : List Char → Option Int
  | '+' :: t =>
      if t ≠ [] ∧ t.all Char.isDigit then some (digitsVal t) else Option.none
  | '-' :: t =>
      if t ≠ [] ∧ t.all Char.isDigit then some (-(digitsVal t : Int))
      else Option.none
  | t => if t ≠ [] ∧ t.all Char.isDigit then some (digitsVal t) else Option.none

/-- The optional exponent tail `[Ee][sign]digits` of a decimal
literal (an empty tail contributes exponent zero). -/
def parseExpTail : List Char → Option Int
  | [] => some (0 : Int)
  | 'E' :: t => parseSignedNat t
  | 'e' :: t => parseSignedNat t
  | _ => Option.none

/-- `Decimal(str)` on finite decimal literals
`[sign] digits [. digits] [E sign digits]`. -/
def parseDecimal (s : List Char) : Option PyDecimal :=
  let ip := (splitSign s).2.takeWhile Char.isDigit
  let r1 := (splitSign s).2.dropWhile Char.isDigit
  let fpSplit : List Char × List Char :=
    match r1 with
    | '.' :: t => (t.takeWhile Char.isDigit, t.dropWhile Char.isDigit)
    | t => ([], t)
  if ip = [] ∧ fpSplit.1 = [] then Option.none
  else
    match parseExpTail fpSplit.2 with
    | some e =>
        some { neg := (splitSign s).1,
               digits := normCoeff ((ip ++ fpSplit.1).map charDigit),
               exp := e - fpSplit.1.length }
    | Option.none => Option.none

/-- Trailing-zero stripping (`.rstrip('0')`) of a digit run. -/
def dropTrailingZeros (cs : List Char) : List Char :=
  (cs.reverse.dropWhile (· = '0')).reverse

/-- `isodate.duration_isoformat` on a `timedelta` (embedded as its exact
total count of microseconds): sign prefix for negative durations, then
`P`, then the `%P` expansion — a `divmod` chain over the absolute total,
emitting only non-zero components (`'P0D'` for zero) and a
trailing-zero-stripped 6-digit fraction for sub-second parts. -/
def durationIsoformat (t : Int) : List Char :=
  let a := t.natAbs
  let us := a % 1000000
  let secsAll := a / 1000000
  let s := secsAll % 60
  let minsAll := secsAll / 60
  let mi := minsAll % 60
  let hrsAll := minsAll / 60
  let h := hrsAll % 24
  let dys := hrsAll / 24
  let ret :=
    (if dys ≠ 0 then natRepr dys ++ ['D'] else []) ++
    (if h ≠ 0 ∨ mi ≠ 0 ∨ s ≠ 0 ∨ us ≠ 0 then
      'T' :: ((if h ≠ 0 then natRepr h ++ ['H'] else []) ++
        (if mi ≠ 0 then natRepr mi ++ ['M'] else []) ++
        (if s ≠ 0 ∨ us ≠ 0 then
          (if us ≠ 0 then
            natRepr s ++ '.' :: (dropTrailingZeros (padNum 6 us) ++ ['S'])
          else natRepr s ++ ['S'])
        else []))
    else [])
  (if t < 0 then ['-'] else []) ++ 'P' :: (if ret = [] then ['0', 'D'] else ret)

/-- One optional `<digits><letter>` duration component: consume it when
the digit run is directly followed by the expected unit letter, report
zero and leave the input untouched otherwise. -/
def parseNumComp (letter : Char) (s : List Char) : Nat × List Char :=
  let ds := s.takeWhile Char.isDigit
  let rest := s.dropWhile Char.isDigit
  if ds = [] then (0, s)
  else
    match rest with
    | c :: r => if c = letter then (digitsVal ds, r) else (0, s)
    | [] => (0, s)

/-- The optional seconds component `<digits>[.<digits>]S` of a duration,
returning whole seconds, microseconds and the remaining input. -/
def parseSecondsComp (s : List Char) : Option (Nat × Nat × List Char) :=
  let ds := s.takeWhile Char.isDigit
  let rest := s.dropWhile Char.isDigit
  if ds = [] then some (0, 0, s)
  else
    match rest with
    | 'S' :: r => some (digitsVal ds, 0, r)
    | '.' :: r2 =>
        (match r2.dropWhile Char.isDigit with
         | 'S' :: r4 =>
             (match fracUsecs (r2.takeWhile Char.isDigit) with
              | some us =>
                  if r2.takeWhile Char.isDigit ≠ [] then
                    some (digitsVal ds, us, r4)
                  else Option.none
              | Option.none => Option.none)
         | _ => Option.none)
    | _ => some (0, 0, s)

/-- The `T...` time part of a duration: optional hours, minutes and
seconds components; the whole input must be consumed. -/
def parseTimePart : List Char → Option (Nat × Nat × Nat × Nat)
  | [] => some (0, 0, 0, 0)
  | 'T' :: rest =>
      let hs := parseNumComp 'H' rest
      let ms := parseNumComp 'M' hs.2
      (match parseSecondsComp ms.2 with
       | some (s, us, r3) =>
           if r3 = [] then some (hs.1, ms.1, s, us) else Option.none
       | Option.none => Option.none)
  | _ => Option.none

/-- `isodate.parse_duration` on the timedelta sub-grammar
`[sign]P[<days>D][T[<hours>H][<minutes>M][<seconds>[.<frac>]S]]`
(year/month/week components and comma separators, which this encoder
never emits, are not modelled), reconstructing the exact microsecond
total. -/
def parseDuration (s : List Char) : Option Int :=
  match (splitSign s).2 with
  | 'P' :: body =>
      let dPart := parseNumComp 'D' body
      (match parseTimePart dPart.2 with
       | some (h, mi, sec, us) =>
           let total : Int :=
             (((dPart.1 * 24 + h) * 60 + mi) * 60 + sec) * 1000000 + us
           some (if (splitSign s).1 then -total else total)
       | Option.none => Option.none)
  | _ => Option.none

/-- The base64 alphabet character of a 6-bit group. -/
def b64Char (n : Nat) : Char :=
  if n < 26 then Char.ofNat (65 + n)
  else if n < 52 then Char.ofNat (97 + (n - 26))
  else if n < 62 then Char.ofNat (48 + (n - 52))
  else if n = 62 then '+'
  else '/'

/-- The 6-bit value of a base64 alphabet character. -/
def b64CharVal (c : Char) : Option Nat :=
  if 65 ≤ c.toNat ∧ c.toNat ≤ 90 then some (c.toNat - 65)
  else if 97 ≤ c.toNat ∧ c.toNat ≤ 122 then some (c.toNat - 97 + 26)
  else if 48 ≤ c.toNat ∧ c.toNat ≤ 57 then some (c.toNat - 48 + 52)
  else if c = '+' then some 62
  else if c = '/' then some 63
  else Option.none

/-- `base64.b64encode`: three bytes to four characters, with `=` padding
for a one- or two-byte tail. -/
def b64encode : List Nat → List Char
  | [] => []
  | [a] => [b64Char (a / 4), b64Char (a % 4 * 16), '=', '=']
  | [a, b] =>
      [b64Char (a / 4), b64Char (a % 4 * 16 + b / 16), b64Char (b % 16 * 4), '=']
  | a :: b :: c :: rest =>
      b64Char (a / 4) :: b64Char (a % 4 * 16 + b / 16) ::
        b64Char (b % 16 * 4 + c / 64) :: b64Char (c % 64) :: b64encode rest

/-- `binascii.a2b_base64` over an already-filtered character stream:
quads of alphabet characters, with padding allowed only in the final
quad. -/
def b64decode : List Char → Option (List Nat)
  | [] => some []
  | c1 :: c2 :: c3 :: c4 :: rest =>
      (match b64CharVal c1, b64CharVal c2 with
       | some v1, some v2 =>
          if c3 = '=' then
            if c4 = '=' ∧ rest = [] then some [v1 * 4 + v2 / 16] else Option.none
          else
            (match b64CharVal c3 with
             | some v3 =>
                if c4 = '=' then
                  if rest = [] then
                    some [v1 * 4 + v2 / 16, v2 % 16 * 16 + v3 / 4]
                  else Option.none
                else
                  (match b64CharVal c4 with
                   | some v4 =>
                       (b64decode rest).map
                         (fun tl => (v1 * 4 + v2 / 16) :: (v2 % 16 * 16 + v3 / 4) ::
                           (v3 % 4 * 64 + v4) :: tl)
                   | Option.none => Option.none)
             | Option.none => Option.none)
       | _, _ => Option.none)
  | _ => Option.none

/-- `base64.encodestring`: encode 57-byte chunks, each rendered as (at
most) 76 base64 characters followed by a newline. -/
def encodestring (bs : List Nat) : List Char :=
  if h : bs = [] then [] else
    b64encode (bs.take 57) ++ '\n' :: encodestring (bs.drop 57)
termination_by bs.length
decreasing_by
  simp only [List.length_drop]
  have : bs.length ≠ 0 := by simpa [List.length_eq_zero] using h
  omega

/-- `base64.decodestring` (`binascii.a2b_base64`): non-alphabet
characters are skipped — the only one this encoder emits is the newline
— and the remaining quads are decoded. -/
def decodestring (s : List Char) : Option (List Nat) :=
  b64decode (s.filter (fun c => c ≠ '\n'))

/-- The Python value domain of the Typed Codec: JSON-native scalars,
lists and dicts (embedded as cons cells to keep the inductive
non-nested), and the tagged kinds — `Decimal`, `date`, `time`,
`datetime`, `timedelta` (exact microsecond total), `bytes`, and the
record-reference namedtuple produced by the `'Model'` decoder. -/
inductive SVal where
  | vNone
  | vBool (b : Bool)
  | vInt (n : Int)
  | vStr (s : String)
  | vDecimal (d : PyDecimal)
  | vDate (y m d : Nat)
  | vTime (h mi s us : Nat)
  | vDatetime (y mo d h mi s us : Nat)
  | vTimedelta (usecs : Int)
  | vBytes (bs : List Nat)
  | vRecordRef (modelName : String) (id : Int) (recName : Option String)
  | vListNil
  | vListCons (hd tl : SVal)
  | vDictNil
  | vDictCons (key : String) (val tl : SVal)
  deriving DecidableEq, Repr

/-- A JSON tree (arrays and objects as cons cells). -/
inductive JVal where
  | jNull
  | jBool (b : Bool)
  | jInt (n : Int)
  | jStr (s : String)
  | jArrNil
  | jArrCons (hd tl : JVal)
  | jObjNil
  | jObjCons (key : String) (val tl : JVal)
  deriving DecidableEq, Repr

/-- A two-field tagged envelope `{'__class__': tag, field: value}` as
built by every registered serializer. -/
def taggedEnvelope (tag field : String) (v : JVal) : JVal :=
  .jObjCons "__class__" (.jStr tag) (.jObjCons field v .jObjNil)

/-- `json.dumps(..., cls=JSONEncoder)`: native kinds pass through,
each registered kind becomes its tagged envelope
(serialization.py lines 125-165), and the record-reference namedtuple —
for which **no encoder is registered** — is serialized by the default
`json.JSONEncoder` as a plain JSON array, because a namedtuple is a
tuple. -/
def encode : SVal → JVal
  | .vNone => .jNull
  | .vBool b => .jBool b
  | .vInt n => .jInt n
  | .vStr s => .jStr s
  | .vDecimal d => taggedEnvelope "Decimal" "decimal" (.jStr ⟨decimalStr d⟩)
  | .vDate y m d => taggedEnvelope "date" "iso_string" (.jStr ⟨isoDate y m d⟩)
  | .vTime h mi s us =>
      taggedEnvelope "time" "iso_string" (.jStr ⟨isoTime h mi s us⟩)
  | .vDatetime y mo d h mi s us =>
      taggedEnvelope "datetime" "iso_string" (.jStr ⟨isoDatetime y mo d h mi s us⟩)
  | .vTimedelta t =>
      taggedEnvelope "timedelta" "iso_string" (.jStr ⟨durationIsoformat t⟩)
  | .vBytes bs => taggedEnvelope "bytes" "base64" (.jStr ⟨encodestring bs⟩)
  | .vRecordRef name id recName =>
      .jArrCons (.jStr name) (.jArrCons (.jInt id)
        (.jArrCons (match recName with
                    | some r => .jStr r
                    | Option.none => .jNull) .jArrNil))
  | .vListNil => .jArrNil
  | .vListCons h t => .jArrCons (encode h) (encode t)
  | .vDictNil => .jObjNil
  | .vDictCons k v t => .jObjCons k (encode v) (encode t)

/-- Lookup in a decoded field list (`dct.get(key)`). -/
def lookupSV (fields : List (String × SVal)) (k : String) : Option SVal :=
  match fields with
  | [] => Option.none
  | (k', v) :: rest => if k' = k then some v else lookupSV rest k

/-- Python truthiness on codec values (`if v.get('iso_string'):`). -/
def svTruthy : SVal → Bool
  | .vNone => false
  | .vBool b => b
  | .vInt n => n != 0
  | .vStr s => s ≠ ""
  | .vDecimal d => d.digits.any (· ≠ 0)
  | .vDate _ _ _ => true
  | .vTime _ _ _ _ => true
  | .vDatetime _ _ _ _ _ _ _ => true
  | .vTimedelta t => t != 0
  | .vBytes bs => bs ≠ []
  | .vRecordRef _ _ _ => true
  | .vListNil => false
  | .vListCons _ _ => true
  | .vDictNil => false
  | .vDictCons _ _ _ => true

/-- Rebuild a plain dict value from decoded fields (an object whose tag
is unknown or absent passes through unchanged as a mapping). -/
def dictOfFields : List (String × SVal) → SVal
  | [] => .vDictNil
  | (k, v) :: rest => .vDictCons k v (dictOfFields rest)

/-- `datetime_decoder` (serialization.py lines 39-46): a truthy
`iso_string` is parsed with `isodate.parse_datetime`; otherwise the
`year`/`month`/`day`/`hour`/`minute`/`second`/`microsecond` integer
components are read (range validation by the `datetime` constructor is
not modelled). -/
def decodeDatetime (fields : List (String × SVal)) : Option SVal :=
  match lookupSV fields "iso_string" with
  | some v =>
      if svTruthy v then
        match v with
        | .vStr s =>
            (parseIsoDatetime s.data).map
              fun c => .vDatetime c.1 c.2.1 c.2.2.1 c.2.2.2.1 c.2.2.2.2.1
                c.2.2.2.2.2.1 c.2.2.2.2.2.2
        | _ => Option.none
      else decodeDatetimeComponents fields
  | Option.none => decodeDatetimeComponents fields
where
  decodeDatetimeComponents (fields : List (String × SVal)) : Option SVal :=
    match lookupSV fields "year", lookupSV fields "month",
        lookupSV fields "day", lookupSV fields "hour",
        lookupSV fields "minute", lookupSV fields "second",
        lookupSV fields "microsecond" with
    | some (.vInt y), some (.vInt mo), some (.vInt d), some (.vInt h),
      some (.vInt mi), some (.vInt s), some (.vInt us) =>
        if 0 ≤ y ∧ 0 ≤ mo ∧ 0 ≤ d ∧ 0 ≤ h ∧ 0 ≤ mi ∧ 0 ≤ s ∧ 0 ≤ us then
          some (.vDatetime y.toNat mo.toNat d.toNat h.toNat mi.toNat s.toNat
            us.toNat)
        else Option.none
    | _, _, _, _, _, _, _ => Option.none

/-- `date_decoder` (serialization.py lines 49-55). -/
def decodeDate (fields : List (String × SVal)) : Option SVal :=
  match lookupSV fields "iso_string" with
  | some v =>
      if svTruthy v then
        match v with
        | .vStr s => (parseIsoDate s.data).map fun c => .vDate c.1 c.2.1 c.2.2
        | _ => Option.none
      else decodeDateComponents fields
  | Option.none => decodeDateComponents fields
where
  decodeDateComponents (fields : List (String × SVal)) : Option SVal :=
    match lookupSV fields "year", lookupSV fields "month",
        lookupSV fields "day" with
    | some (.vInt y), some (.vInt mo), some (.vInt d) =>
        if 0 ≤ y ∧ 0 ≤ mo ∧ 0 ≤ d then
          some (.vDate y.toNat mo.toNat d.toNat)
        else Option.none
    | _, _, _ => Option.none

/-- `time_decoder` (serialization.py lines 58-64). -/
def decodeTime (fields : List (String × SVal)) : Option SVal :=
  match lookupSV fields "iso_string" with
  | some v =>
      if svTruthy v then
        match v with
        | .vStr s =>
            (parseIsoTime s.data).map fun c => .vTime c.1 c.2.1 c.2.2.1 c.2.2.2
        | _ => Option.none
      else decodeTimeComponents fields
  | Option.none => decodeTimeComponents fields
where
  decodeTimeComponents (fields : List (String × SVal)) : Option SVal :=
    match lookupSV fields "hour", lookupSV fields "minute",
        lookupSV fields "second", lookupSV fields "microsecond" with
    | some (.vInt h), some (.vInt mi), some (.vInt s), some (.vInt us) =>
        if 0 ≤ h ∧ 0 ≤ mi ∧ 0 ≤ s ∧ 0 ≤ us then
          some (.vTime h.toNat mi.toNat s.toNat us.toNat)
        else Option.none
    | _, _, _, _ => Option.none

/-- `timedelta_decoder` (serialization.py lines 67-71): a truthy
`iso_string` is parsed with `isodate.parse_duration`; otherwise
`timedelta(seconds=v['seconds'])` (integer seconds modelled). -/
def decodeTimedelta (fields : List (String × SVal)) : Option SVal :=
  match lookupSV fields "iso_string" with
  | some v =>
      if svTruthy v then
        match v with
        | .vStr s => (parseDuration s.data).map fun t => .vTimedelta t
        | _ => Option.none
      else decodeTimedeltaSeconds fields
  | Option.none => decodeTimedeltaSeconds fields
where
  decodeTimedeltaSeconds (fields : List (String × SVal)) : Option SVal :=
    match lookupSV fields "seconds" with
    | some (.vInt n) => some (.vTimedelta (n * 1000000))
    | _ => Option.none

/-- `_bytes_decoder` (serialization.py lines 74-77):
`bytes(base64.decodestring(v['base64']))`. -/
def decodeBytes (fields : List (String × SVal)) : Option SVal :=
  match lookupSV fields "base64" with
  | some (.vStr s) => (decodestring s.data).map fun bs => .vBytes bs
  | _ => Option.none

/-- `decimal_decoder` (serialization.py lines 80-82):
`Decimal(v['decimal'])` for string (and integer) payloads. -/
def decodeDecimal (fields : List (String × SVal)) : Option SVal :=
  match lookupSV fields "decimal" with
  | some (.vStr s) => (parseDecimal s.data).map fun d => .vDecimal d
  | some (.vInt n) =>
      some (.vDecimal
        { neg := n < 0,
          digits := normCoeff ((Nat.digits 10 n.natAbs).reverse),
          exp := 0 })
  | _ => Option.none

/-- The `'Model'` decoder (serialization.py lines 85-90):
`dummy_record(dct['model_name'], dct['id'], dct.get('rec_name'))`. -/
def decodeModel (fields : List (String × SVal)) : Option SVal :=
  match lookupSV fields "model_name", lookupSV fields "id" with
  | some (.vStr name), some (.vInt id) =>
      match lookupSV fields "rec_name" with
      | some (.vStr r) => some (.vRecordRef name id (some r))
      | some .vNone => some (.vRecordRef name id Option.none)
      | Option.none => some (.vRecordRef name id Option.none)
      | _ => Option.none
  | _, _ => Option.none

/-- `JSONDecoder.__call__` (serialization.py lines 26-29): dispatch on
the `__class__` discriminator to the registered decoder; unknown or
absent tags pass the mapping through unchanged.  The `'AsyncResult'`
tag decodes to an unbound task-handle object, which lies outside the
embedded value domain and is modelled as a decode failure. -/
def dispatchTag (fields : List (String × SVal)) : Option SVal :=
  match lookupSV fields "__class__" with
  | some (.vStr "datetime") => decodeDatetime fields
  | some (.vStr "date") => decodeDate fields
  | some (.vStr "time") => decodeTime fields
  | some (.vStr "timedelta") => decodeTimedelta fields
  | some (.vStr "bytes") => decodeBytes fields
  | some (.vStr "Decimal") => decodeDecimal fields
  | some (.vStr "Model") => decodeModel fields
  | some (.vStr "AsyncResult") => Option.none
  | _ => some (dictOfFields fields)

mutual

/-- `json.loads(..., object_hook=JSONDecoder())`: scalars and arrays
pass through; every object is decoded bottom-up and then handed to the
tag dispatcher. -/
def decode : JVal → Option SVal
  | .jNull => some .vNone
  | .jBool b => some (.vBool b)
  | .jInt n => some (.vInt n)
  | .jStr s => some (.vStr s)
  | .jArrNil => some .vListNil
  | .jArrCons h t =>
      match decode h, decode t with
      | some h', some t' => some (.vListCons h' t')
      | _, _ => Option.none
  | .jObjNil => dispatchTag []
  | .jObjCons k v t =>
      match decode v, decodeFields t with
      | some v', some fs => dispatchTag ((k, v') :: fs)
      | _, _ => Option.none

/-- Decode the fields of a JSON object. -/
def decodeFields : JVal → Option (List (String × SVal))
  | .jObjNil => some []
  | .jObjCons k v t =>
      match decode v, decodeFields t with
      | some v', some fs => some ((k, v') :: fs)
      | _, _ => Option.none
  | _ => Option.none

end

/-! ## Theorems -/

/-- Allocation leaves every previously allocated list object unchanged. -/
theorem storeGet_alloc_old (σ : ListStore) (l : List DomainPred) (r : Nat)
    (h : r < σ.length) : storeGet (storeAlloc σ l).1 r = storeGet σ r := by
  simp [storeGet, storeAlloc, List.getD_eq_getElem?_getD, List.getElem?_append, h]

/-- Allocation stores the given contents at the returned reference. -/
theorem storeGet_alloc_new (σ : ListStore) (l : List DomainPred) :
    storeGet (storeAlloc σ l).1 (storeAlloc σ l).2 = l := by
  simp [storeGet, storeAlloc, List.getD_eq_getElem?_getD, List.getElem?_append]

/-- In-place mutation of one list object leaves the others unchanged. -/
theorem storeGet_set_ne (σ : ListStore) (l : List DomainPred) (i r : Nat)
    (h : i ≠ r) : storeGet (storeSet σ i l) r = storeGet σ r := by
  simp [storeGet, storeSet, List.getD_eq_getElem?_getD, List.getElem?_set, h]

/-- In-place mutation of an allocated list object stores the new
contents. -/
theorem storeGet_set_self (σ : ListStore) (l : List DomainPred) (i : Nat)
    (h : i < σ.length) : storeGet (storeSet σ i l) i = l := by
  simp [storeGet, storeSet, List.getD_eq_getElem?_getD, List.getElem?_set, h]

/-- `filter_by` acts only on the freshly copied domain list: every list
object allocated before the call keeps its contents. -/
theorem queryFilterBy_frame (σ : ListStore) (q : QueryObj)
    (kwargs : List (String × PyVal)) (r : Nat) (h : r < σ.length) :
    storeGet (queryFilterBy σ q kwargs).2 r = storeGet σ r := by
  unfold queryFilterBy queryCopy
  rw [storeGet_set_ne _ _ _ _ (by simp [storeAlloc]; omega)]
  exact storeGet_alloc_old σ _ r h

/-- The builder returned by `filter_by` sees the receiver's domain plus
one equality predicate per keyword argument. -/
theorem queryFilterBy_self (σ : ListStore) (q : QueryObj)
    (kwargs : List (String × PyVal)) (h : q.domainRef < σ.length) :
    queryDomain (queryFilterBy σ q kwargs).2 (queryFilterBy σ q kwargs).1 =
      queryDomain σ q ++ kwargs.map (fun kv => (kv.1, "=", kv.2)) := by
  unfold queryDomain queryFilterBy queryCopy
  rw [storeGet_set_self _ _ _ (by simp [storeAlloc])]
  rw [storeGet_alloc_new]

/-- `filter_by` grows the store by exactly the one copied list object. -/
theorem queryFilterBy_length (σ : ListStore) (q : QueryObj)
    (kwargs : List (String × PyVal)) :
    (queryFilterBy σ q kwargs).2.length = σ.length + 1 := by
  simp [queryFilterBy, queryCopy, storeSet, storeAlloc]

/-- The builder returned by `filter_by` points at the freshly allocated
list object. -/
theorem queryFilterBy_ref (σ : ListStore) (q : QueryObj)
    (kwargs : List (String × PyVal)) :
    (queryFilterBy σ q kwargs).1.domainRef = σ.length := rfl

/-- C7: every builder method (`filter_by`, `filter_by_domain`, `limit`,
`offset`, `order_by`, `show_active_only`) returns a new builder with only
the requested field changed while the receiver's accumulated state — its
domain list contents in the store and its scalar fields — identical
before and after the call; and two builders derived from the same base
via different `filter_by` calls never observe each other's predicates. -/
theorem C7_query_builder_copy_on_write (σ : ListStore) (q : QueryObj)
    (kwargs : List (String × PyVal)) (dom : List DomainPred)
    (l o : Nat) (crit : List PyVal) (st : Bool)
    (f1 f2 : String) (v1 v2 : PyVal)
    (href : q.domainRef < σ.length) :
    (queryDomain (queryFilterBy σ q kwargs).2 q = queryDomain σ q) ∧
    (queryDomain (queryFilterByDomain σ q dom).2 q = queryDomain σ q) ∧
    (queryDomain (queryLimit σ q l).2 q = queryDomain σ q) ∧
    (queryDomain (queryOffset σ q o).2 q = queryDomain σ q) ∧
    (queryDomain (queryOrderBy σ q crit).2 q = queryDomain σ q) ∧
    (queryDomain (queryShowActiveOnly σ q st).2 q = queryDomain σ q) ∧
    ((queryFilterBy σ q kwargs).1.limitQ = q.limitQ ∧
     (queryFilterBy σ q kwargs).1.offsetQ = q.offsetQ ∧
     (queryFilterBy σ q kwargs).1.orderByQ = q.orderByQ ∧
     (queryFilterBy σ q kwargs).1.activeOnly = q.activeOnly ∧
     queryDomain (queryFilterBy σ q kwargs).2 (queryFilterBy σ q kwargs).1 =
       queryDomain σ q ++ kwargs.map (fun kv => (kv.1, "=", kv.2))) ∧
    (queryDomain (queryFilterByDomain σ q dom).2
        (queryFilterByDomain σ q dom).1 = dom ∧
     (queryFilterByDomain σ q dom).1.limitQ = q.limitQ ∧
     (queryFilterByDomain σ q dom).1.offsetQ = q.offsetQ ∧
     (queryFilterByDomain σ q dom).1.orderByQ = q.orderByQ ∧
     (queryFilterByDomain σ q dom).1.activeOnly = q.activeOnly) ∧
    ((queryLimit σ q l).1.limitQ = some l ∧
     (queryLimit σ q l).1.offsetQ = q.offsetQ ∧
     (queryLimit σ q l).1.orderByQ = q.orderByQ ∧
     (queryLimit σ q l).1.activeOnly = q.activeOnly ∧
     queryDomain (queryLimit σ q l).2 (queryLimit σ q l).1 =
       queryDomain σ q) ∧
    ((queryOffset σ q o).1.offsetQ = some o ∧
     (queryOffset σ q o).1.limitQ = q.limitQ ∧
     (queryOffset σ q o).1.orderByQ = q.orderByQ ∧
     (queryOffset σ q o).1.activeOnly = q.activeOnly ∧
     queryDomain (queryOffset σ q o).2 (queryOffset σ q o).1 =
       queryDomain σ q) ∧
    ((queryOrderBy σ q crit).1.orderByQ = some crit ∧
     (queryOrderBy σ q crit).1.limitQ = q.limitQ ∧
     (queryOrderBy σ q crit).1.offsetQ = q.offsetQ ∧
     (queryOrderBy σ q crit).1.activeOnly = q.activeOnly ∧
     queryDomain (queryOrderBy σ q crit).2 (queryOrderBy σ q crit).1 =
       queryDomain σ q) ∧
    ((queryShowActiveOnly σ q st).1.activeOnly = st ∧
     (queryShowActiveOnly σ q st).1.limitQ = q.limitQ ∧
     (queryShowActiveOnly σ q st).1.offsetQ = q.offsetQ ∧
     (queryShowActiveOnly σ q st).1.orderByQ = q.orderByQ ∧
     queryDomain (queryShowActiveOnly σ q st).2 (queryShowActiveOnly σ q st).1 =
       queryDomain σ q) ∧
    (queryDomain (queryFilterBy (queryFilterBy σ q [(f1, v1)]).2 q [(f2, v2)]).2
        (queryFilterBy σ q [(f1, v1)]).1 =
          queryDomain σ q ++ [(f1, "=", v1)] ∧
     queryDomain (queryFilterBy (queryFilterBy σ q [(f1, v1)]).2 q [(f2, v2)]).2
        (queryFilterBy (queryFilterBy σ q [(f1, v1)]).2 q [(f2, v2)]).1 =
          queryDomain σ q ++ [(f2, "=", v2)] ∧
     queryDomain (queryFilterBy (queryFilterBy σ q [(f1, v1)]).2 q [(f2, v2)]).2 q
        = queryDomain σ q) := by
  have hcopy : ∀ τ : ListStore, q.domainRef < τ.length →
      queryDomain (queryCopy τ q).2 q = queryDomain τ q := by
    intro τ h
    exact storeGet_alloc_old τ _ _ h
  have hself : queryDomain (queryCopy σ q).2 (queryCopy σ q).1 =
      queryDomain σ q := by
    unfold queryDomain queryCopy
    rw [storeGet_alloc_new]
  refine ⟨?_, ?_, ?_, ?_, ?_, ?_, ?_, ?_, ?_, ?_, ?_, ?_, ?_⟩
  · exact queryFilterBy_frame σ q kwargs _ href
  · unfold queryDomain queryFilterByDomain queryCopy
    rw [storeGet_alloc_old _ _ _ (by simp [storeAlloc]; omega)]
    exact storeGet_alloc_old σ _ _ href
  · exact hcopy σ href
  · exact hcopy σ href
  · exact hcopy σ href
  · exact hcopy σ href
  · exact ⟨rfl, rfl, rfl, rfl, queryFilterBy_self σ q kwargs href⟩
  · refine ⟨?_, rfl, rfl, rfl, rfl⟩
    unfold queryDomain queryFilterByDomain
    exact storeGet_alloc_new _ _
  · exact ⟨rfl, rfl, rfl, rfl, hself⟩
  · exact ⟨rfl, rfl, rfl, rfl, hself⟩
  · exact ⟨rfl, rfl, rfl, rfl, hself⟩
  · exact ⟨rfl, rfl, rfl, rfl, hself⟩
  · have hlen1 := queryFilterBy_length σ q [(f1, v1)]
    have hd1 := queryFilterBy_self σ q [(f1, v1)] href
    refine ⟨?_, ?_, ?_⟩
    · rw [show queryDomain (queryFilterBy (queryFilterBy σ q [(f1, v1)]).2 q
          [(f2, v2)]).2 (queryFilterBy σ q [(f1, v1)]).1 =
          storeGet (queryFilterBy (queryFilterBy σ q [(f1, v1)]).2 q
            [(f2, v2)]).2 (queryFilterBy σ q [(f1, v1)]).1.domainRef from rfl]
      rw [queryFilterBy_ref]
      rw [queryFilterBy_frame _ q [(f2, v2)] σ.length (by omega)]
      exact hd1
    · rw [queryFilterBy_self _ q [(f2, v2)] (by omega)]
      rw [show queryDomain (queryFilterBy σ q [(f1, v1)]).2 q =
          storeGet (queryFilterBy σ q [(f1, v1)]).2 q.domainRef from rfl]
      rw [queryFilterBy_frame σ q [(f1, v1)] q.domainRef href]
      simp [queryDomain]
    · rw [show queryDomain (queryFilterBy (queryFilterBy σ q [(f1, v1)]).2 q
          [(f2, v2)]).2 q =
          storeGet (queryFilterBy (queryFilterBy σ q [(f1, v1)]).2 q
            [(f2, v2)]).2 q.domainRef from rfl]
      rw [queryFilterBy_frame _ q [(f2, v2)] q.domainRef (by omega)]
      exact queryFilterBy_frame σ q [(f1, v1)] q.domainRef href

/-- Witness for C7 at a concrete base builder holding the single
predicate `("code", "=", "X")` at store slot 0. -/
theorem C7_query_builder_witness :
    0 < ([[("code", "=", PyVal.str "X")]] : ListStore).length ∧
    queryDomain
      (queryFilterBy
        (queryFilterBy [[("code", "=", PyVal.str "X")]]
          ⟨0, Option.none, Option.none, Option.none, true⟩
          [("a", PyVal.int 1)]).2
        ⟨0, Option.none, Option.none, Option.none, true⟩
        [("b", PyVal.int 2)]).2
      ⟨0, Option.none, Option.none, Option.none, true⟩ =
        [("code", "=", PyVal.str "X")] := by
  have h := C7_query_builder_copy_on_write
    [[("code", "=", PyVal.str "X")]]
    ⟨0, Option.none, Option.none, Option.none, true⟩
    [] [] 0 0 [] true "a" "b" (PyVal.int 1) (PyVal.int 2) (by decide)
  exact ⟨by decide, h.2.2.2.2.2.2.2.2.2.2.2.2.2.2⟩

/-- `dictLookup` only returns pairs present in the association list. -/
theorem mem_of_dictLookup {es : List (String × PyVal)} {k : String} {v : PyVal}
    (h : dictLookup es k = some v) : (k, v) ∈ es := by
  induction es with
  | nil => simp [dictLookup] at h
  | cons hd tl ih =>
      obtain ⟨k', v'⟩ := hd
      by_cases hk : k' = k
      · subst hk
        simp [dictLookup] at h
        simp [h]
      · simp [dictLookup, hk] at h
        exact List.mem_cons_of_mem _ (ih h)

/-- Python dict equality is extensional: equal dicts agree on every
lookup. -/
theorem dictPyEq_lookup {a b : List (String × PyVal)}
    (h : dictPyEq a b = true) (k : String) : dictLookup a k = dictLookup b k := by
  unfold dictPyEq at h
  rw [Bool.and_eq_true, List.all_eq_true, List.all_eq_true] at h
  obtain ⟨hab, hba⟩ := h
  cases hav : dictLookup a k with
  | some v =>
      have hb := hab _ (mem_of_dictLookup hav)
      simp only [decide_eq_true_eq] at hb
      rw [hb]
  | none =>
      cases hbv : dictLookup b k with
      | some w =>
          have ha := hba _ (mem_of_dictLookup hbv)
          simp only [decide_eq_true_eq] at ha
          rw [hav] at ha
          exact absurd ha (by simp)
      | none => rfl

/-- C1: `Query.one()` transposes the `offset` and `limit` arguments of
`search_read` (it passes `(domain, 2, None, ...)`, i.e. offset 2 and no
limit, where the documented behaviour needs limit 2 and no offset).
Evaluating the embedded code: over exactly one matching row it raises
`NoResultFound` instead of returning the row; over exactly two rows it
raises `NoResultFound` instead of `MultipleResultsFound`; over exactly
three rows it silently returns the third row instead of raising; the
spec-intended variant `queryOneSpec` behaves as documented. -/
theorem C1_query_one_offset_limit_transposed :
    queryOne [PyVal.int 1] = .error ModelExc.noResultFound ∧
    queryOne [PyVal.int 1, PyVal.int 2] = .error ModelExc.noResultFound ∧
    queryOne [PyVal.int 1, PyVal.int 2, PyVal.int 3] = .ok (PyVal.int 3) ∧
    queryOneSpec [PyVal.int 1] = .ok (PyVal.int 1) ∧
    queryOneSpec [PyVal.int 1, PyVal.int 2] = .error ModelExc.multipleResultsFound ∧
    queryOneSpec ([] : List PyVal) = .error ModelExc.noResultFound := by
  refine ⟨rfl, rfl, rfl, rfl, rfl, rfl⟩

/-- C6: for the change-tracking container, setting a key to a value equal
to its current value leaves the change set untouched; setting an absent
key or a different value adds exactly that key; `update` applies the same
per-key rule as direct assignment; and a container freshly constructed
from an initial row mapping has an empty change set. -/
theorem C6_modification_tracking
    (d : ModificationTrackingDict) (k : String) (v : PyVal)
    (init : List (String × PyVal)) :
    (dictLookup d.entries k = some v →
      (d.setItem k v).changes = d.changes) ∧
    (dictLookup d.entries k ≠ some v →
      (d.setItem k v).changes = d.changes.insert k) ∧
    (d.update [(k, v)] = d.setItem k v) ∧
    (ModificationTrackingDict.ofDict init).changes = [] := by
  refine ⟨fun h => ?_, fun h => ?_, rfl, rfl⟩
  · simp [ModificationTrackingDict.setItem, h]
  · simp [ModificationTrackingDict.setItem, h]

/-- Witness for C6 at concrete inputs: re-setting `"a" ↦ "apple"` in a
fresh container leaves the change set empty; setting the new key `"b"`
records exactly `"b"`. -/
theorem C6_modification_tracking_witness :
    ((ModificationTrackingDict.ofDict
        [("a", PyVal.str "apple")]).setItem "a" (PyVal.str "apple")).changes = [] ∧
    ((ModificationTrackingDict.ofDict
        [("a", PyVal.str "apple")]).setItem "b" (PyVal.str "ball")).changes = ["b"] := by
  have h1 := (C6_modification_tracking
    (ModificationTrackingDict.ofDict [("a", PyVal.str "apple")]) "a"
    (PyVal.str "apple") []).1 (by decide)
  have h2 := (C6_modification_tracking
    (ModificationTrackingDict.ofDict [("a", PyVal.str "apple")]) "b"
    (PyVal.str "ball") []).2.1 (by decide)
  exact ⟨by rw [h1]; rfl, by rw [h2]; rfl⟩

/-- C10: `Model.has_changed` is `len(self._values) > 0` — it depends only
on the number of stored values, never on the dirty set; in particular a
record freshly built from a fetched row (empty change set) with at least
one field value reports `has_changed = True`. -/
theorem C10_has_changed_counts_values (name : String)
    (es : List (String × PyVal)) (cs cs' : List String)
    (row : List (String × PyVal)) :
    (RecordInst.has_changed ⟨name, ⟨es, cs⟩⟩ =
      RecordInst.has_changed ⟨name, ⟨es, cs'⟩⟩) ∧
    (RecordInst.has_changed ⟨name, ⟨es, cs⟩⟩ = true ↔ es ≠ []) ∧
    (row ≠ [] →
      RecordInst.has_changed ⟨name, ModificationTrackingDict.ofDict row⟩ = true) := by
  refine ⟨rfl, ?_, fun h => ?_⟩
  · simp [RecordInst.has_changed, ModificationTrackingDict.size,
      List.length_pos]
  · simp [RecordInst.has_changed, ModificationTrackingDict.size,
      ModificationTrackingDict.ofDict, List.length_pos, h]

/-- Witness for C10: a record holding one fetched field value and an
empty change set reports `has_changed = True`. -/
theorem C10_has_changed_witness :
    RecordInst.has_changed
      ⟨"res.user", ModificationTrackingDict.ofDict [("name", PyVal.str "Jon")]⟩ =
        true ∧
    (ModificationTrackingDict.ofDict [("name", PyVal.str "Jon")]).changes = [] := by
  refine ⟨?_, rfl⟩
  exact (C10_has_changed_counts_values "res.user" [] [] []
    [("name", PyVal.str "Jon")]).2.2 (by decide)

/-- The paging loop of `search_read_all` yields exactly the row window
`[p, endIdx)`, provided the `range` step (equal to the initial batch
size) is positive.  The final page is shrunk, never overshooting. -/
theorem sraPages_yield (rows : List α) (bs : Nat) (hbs : 0 < bs) :
    ∀ fuel p endIdx, endIdx - p ≤ fuel →
      (sraPages rows endIdx (pyRange p endIdx bs) bs).2 =
        (rows.drop p).take (endIdx - p) := by
  intro fuel
  induction fuel with
  | zero =>
      intro p endIdx h
      rw [pyRange, dif_pos (Or.inr (by omega))]
      have h0 : endIdx - p = 0 := by omega
      simp [sraPages, h0]
  | succ n ih =>
      intro p endIdx h
      by_cases hstop : endIdx ≤ p
      · rw [pyRange, dif_pos (Or.inr hstop)]
        have h0 : endIdx - p = 0 := by omega
        simp [sraPages, h0]
      · rw [pyRange, dif_neg (by omega)]
        by_cases hlast : endIdx < p + bs
        · simp only [sraPages, if_pos hlast]
          rw [pyRange, dif_pos (Or.inr (by omega))]
          simp [sraPages, searchRead]
        · simp only [sraPages, if_neg hlast]
          rw [ih (p + bs) endIdx (by omega)]
          have hsplit : endIdx - p = bs + (endIdx - (p + bs)) := by omega
          rw [hsplit, List.take_add]
          simp only [searchRead, Option.getD_some]
          rw [List.drop_drop, Nat.add_comm p bs]

/-- The paging loop of `search_read_all` never issues a count call. -/
theorem sraPages_no_count (rows : List α) (endIdx : Nat) :
    ∀ ps bs, SraCall.countCall ∉ (sraPages rows endIdx ps bs).1 := by
  intro ps
  induction ps with
  | nil => intro bs; simp [sraPages]
  | cons p ps ih =>
      intro bs
      simp only [sraPages, List.mem_cons, not_or]
      exact ⟨by simp, ih _⟩

/-- C2: for a positive batch size and a collection stable during the
iteration, `search_read_all` yields exactly the row window
`[offset, end)` — `end = offset + limit` when a limit is given, and
`end = offset + count` after exactly one count call when it is omitted —
with no row skipped or duplicated and the last page request never
extending past `end`; with a limit given, no count call is issued.  In
particular, with `batch_size = 5`, `limit = 10`, `offset = 5` over at
least 20 matching rows it yields exactly 10 rows. -/
theorem C2_search_read_all_pagination (rows : List α) (bs off : Nat)
    (lim : Option Nat) (hbs : 0 < bs) :
    ((searchReadAll rows bs off lim).2 =
       (rows.drop off).take
         ((match lim with
           | Option.none => rows.length + off
           | some l => l + off) - off)) ∧
    (searchReadAll rows bs off Option.none).1.count SraCall.countCall = 1 ∧
    (∀ l, (searchReadAll rows bs off (some l)).1.count SraCall.countCall = 0) ∧
    (20 ≤ rows.length → ((searchReadAll rows 5 5 (some 10)).2).length = 10) := by
  refine ⟨?_, ?_, ?_, ?_⟩
  · cases lim with
    | none =>
        simp only [searchReadAll]
        exact sraPages_yield rows bs hbs _ off (rows.length + off) le_rfl
    | some l =>
        simp only [searchReadAll]
        exact sraPages_yield rows bs hbs _ off (l + off) le_rfl
  · have h0 := List.count_eq_zero.mpr
      (sraPages_no_count rows (rows.length + off)
        (pyRange off (rows.length + off) bs) bs)
    simp [searchReadAll, h0]
  · intro l
    simp only [searchReadAll, List.count_eq_zero]
    exact sraPages_no_count rows (l + off) _ _
  · intro hlen
    have h10 := sraPages_yield rows 5 (by omega) (10 + 5) 5 (10 + 5) (by omega)
    simp only [searchReadAll, h10]
    simp [List.length_take, List.length_drop]
    omega

/-- Witness for C2 at concrete inputs: over the 21-row collection
`List.range 21` with batch size 5, offset 5 and limit 10, the iterator
yields exactly the rows 5..14. -/
theorem C2_search_read_all_witness :
    0 < 5 ∧
    (searchReadAll (List.range 21) 5 5 (some 10)).2 =
      ((List.range 21).drop 5).take 10 ∧
    ((searchReadAll (List.range 21) 5 5 (some 10)).2).length = 10 := by
  have h := C2_search_read_all_pagination (List.range 21) 5 5 (some 10)
    (by decide)
  exact ⟨by decide, by simpa using h.1, h.2.2.2 (by simp)⟩

/-- Digit characters decode back to their value. -/
theorem charDigit_digitChar : ∀ d : Nat, d < 10 → charDigit (digitChar d) = d := by
  decide

/-- Digit characters satisfy `Char.isDigit`. -/
theorem isDigit_digitChar : ∀ d : Nat, d < 10 → (digitChar d).isDigit = true := by
  decide

/-- Every character of `'%d' % n` is a digit. -/
theorem natRepr_all_digit (n : Nat) : ∀ c ∈ natRepr n, c.isDigit = true := by
  intro c hc
  unfold natRepr at hc
  split at hc
  · simp at hc
    subst hc
    decide
  · simp only [List.mem_reverse, List.mem_map] at hc
    obtain ⟨d, hd, rfl⟩ := hc
    exact isDigit_digitChar d (Nat.digits_lt_base (by norm_num) hd)

/-- `'%d' % n` is never empty. -/
theorem natRepr_ne_nil (n : Nat) : natRepr n ≠ [] := by
  unfold natRepr
  split
  · simp
  · rename_i hn
    simp [Nat.digits_ne_nil_iff_ne_zero, hn]

/-- Folding the digit characters of a digit list recovers
`Nat.ofDigits`. -/
theorem foldr_digits_eq_ofDigits (l : List Nat) (hl : ∀ d ∈ l, d < 10) :
    l.foldr (fun d acc => 10 * acc + charDigit (digitChar d)) 0 =
      Nat.ofDigits 10 l := by
  induction l with
  | nil => simp [Nat.ofDigits]
  | cons d ds ih =>
      simp only [List.foldr_cons, Nat.ofDigits_cons]
      rw [charDigit_digitChar d (hl d (by simp)),
        ih (fun x hx => hl x (by simp [hx]))]
      ring

/-- Parsing `'%d' % n` recovers `n`. -/
theorem digitsVal_natRepr (n : Nat) : digitsVal (natRepr n) = n := by
  unfold natRepr digitsVal
  split
  · rename_i h
    subst h
    decide
  · rw [List.foldl_reverse, List.foldr_map]
    have := foldr_digits_eq_ofDigits (Nat.digits 10 n)
      (fun d hd => Nat.digits_lt_base (by norm_num) hd)
    simpa [this] using congrArg (fun x => x) (Nat.ofDigits_digits 10 n)

/-- A leading zero character does not change the parsed value. -/
theorem digitsVal_cons_zero (ds : List Char) :
    digitsVal ('0' :: ds) = digitsVal ds := by
  simp [digitsVal, charDigit]

/-- Leading zero padding does not change the parsed value. -/
theorem digitsVal_replicate_zero (k : Nat) (ds : List Char) :
    digitsVal (List.replicate k '0' ++ ds) = digitsVal ds := by
  induction k with
  | zero => simp
  | succ n ih =>
      rw [List.replicate_succ, List.cons_append, digitsVal_cons_zero, ih]

/-- Parsing `'%0*d' % (w, n)` recovers `n`. -/
theorem digitsVal_padNum (w n : Nat) : digitsVal (padNum w n) = n := by
  unfold padNum
  rw [digitsVal_replicate_zero, digitsVal_natRepr]

/-- Every character of a zero-padded number is a digit. -/
theorem padNum_all_digit (w n : Nat) : ∀ c ∈ padNum w n, c.isDigit = true := by
  intro c hc
  unfold padNum at hc
  rcases List.mem_append.mp hc with h | h
  · rw [List.eq_of_mem_replicate h]
    decide
  · exact natRepr_all_digit n c h

/-- A number below `10 ^ w` prints in at most `w` characters. -/
theorem natRepr_length_le (w n : Nat) (h : n < 10 ^ w) (hw : 0 < w) :
    (natRepr n).length ≤ w := by
  unfold natRepr
  split
  · simpa using hw
  · rename_i hn
    simp only [List.length_reverse, List.length_map]
    rw [Nat.digits_len 10 n (by norm_num) hn]
    have := Nat.log_lt_of_lt_pow hn h
    omega

/-- A number below `10 ^ w` zero-pads to exactly `w` characters. -/
theorem padNum_length (w n : Nat) (h : n < 10 ^ w) (hw : 0 < w) :
    (padNum w n).length = w := by
  have := natRepr_length_le w n h hw
  simp only [padNum, List.length_append, List.length_replicate]
  omega

/-- `takeWhile isDigit` keeps an all-digit list whole. -/
theorem takeWhile_all_digit (xs : List Char)
    (h : ∀ c ∈ xs, c.isDigit = true) : xs.takeWhile Char.isDigit = xs := by
  induction xs with
  | nil => rfl
  | cons c t ih =>
      rw [List.takeWhile_cons, if_pos (h c (by simp)),
        ih (fun x hx => h x (by simp [hx]))]

/-- `dropWhile isDigit` exhausts an all-digit list. -/
theorem dropWhile_all_digit (xs : List Char)
    (h : ∀ c ∈ xs, c.isDigit = true) : xs.dropWhile Char.isDigit = [] := by
  induction xs with
  | nil => rfl
  | cons c t ih =>
      rw [List.dropWhile_cons, if_pos (h c (by simp)),
        ih (fun x hx => h x (by simp [hx]))]

/-- `takeWhile isDigit` of digits followed by a non-digit stops exactly
at the non-digit. -/
theorem takeWhile_digits_append_stop (xs : List Char) (c : Char)
    (t : List Char) (h : ∀ x ∈ xs, x.isDigit = true)
    (hc : c.isDigit = false) :
    (xs ++ c :: t).takeWhile Char.isDigit = xs := by
  induction xs with
  | nil => simp [List.takeWhile_cons, hc]
  | cons a b ih =>
      rw [List.cons_append, List.takeWhile_cons, if_pos (h a (by simp)),
        ih (fun x hx => h x (by simp [hx]))]

/-- `dropWhile isDigit` of digits followed by a non-digit leaves the
non-digit and everything after it. -/
theorem dropWhile_digits_append_stop (xs : List Char) (c : Char)
    (t : List Char) (h : ∀ x ∈ xs, x.isDigit = true)
    (hc : c.isDigit = false) :
    (xs ++ c :: t).dropWhile Char.isDigit = c :: t := by
  induction xs with
  | nil => simp [List.dropWhile_cons, hc]
  | cons a b ih =>
      rw [List.cons_append, List.dropWhile_cons, if_pos (h a (by simp)),
        ih (fun x hx => h x (by simp [hx]))]

/-- `spanDigits` of digits followed by a non-digit splits at the
non-digit. -/
theorem spanDigits_append_stop (xs : List Char) (c : Char) (t : List Char)
    (h : ∀ x ∈ xs, x.isDigit = true) (hc : c.isDigit = false) :
    spanDigits (xs ++ c :: t) = (xs, c :: t) := by
  unfold spanDigits
  rw [takeWhile_digits_append_stop xs c t h hc,
    dropWhile_digits_append_stop xs c t h hc]

/-- `spanDigits` of an all-digit list consumes everything. -/
theorem spanDigits_all (xs : List Char) (h : ∀ c ∈ xs, c.isDigit = true) :
    spanDigits xs = (xs, []) := by
  unfold spanDigits
  rw [takeWhile_all_digit xs h, dropWhile_all_digit xs h]

/-- The sign splitter leaves a digit-headed string untouched. -/
theorem splitSign_digit (c : Char) (t : List Char) (hc : c.isDigit = true) :
    splitSign (c :: t) = (false, c :: t) := by
  unfold splitSign
  split
  · rename_i heq
    rw [List.cons.injEq] at heq
    rw [heq.1] at hc
    simp at hc
  · rename_i heq
    rw [List.cons.injEq] at heq
    rw [heq.1] at hc
    simp at hc
  · rfl

/-- Coefficient digit characters are digits. -/
theorem decimalDigitsChars_all_digit (ds : List Nat) (h : ∀ x ∈ ds, x < 10) :
    ∀ c ∈ decimalDigitsChars ds, c.isDigit = true := by
  intro c hc
  obtain ⟨x, hx, rfl⟩ := List.mem_map.mp hc
  exact isDigit_digitChar x (h x hx)

/-- Decoding the coefficient digit characters recovers the digits. -/
theorem map_charDigit_decimalDigitsChars (ds : List Nat)
    (h : ∀ x ∈ ds, x < 10) : (decimalDigitsChars ds).map charDigit = ds := by
  unfold decimalDigitsChars
  rw [List.map_map]
  have : ∀ x ∈ ds, (charDigit ∘ digitChar) x = id x := by
    intro x hx
    simp [Function.comp, charDigit_digitChar x (h x hx)]
  rw [List.map_congr_left this, List.map_id]

/-- A coefficient with no leading zero (or the zero coefficient itself)
is left unchanged by the parser's normalisation. -/
theorem normCoeff_invariant (ds : List Nat) (hne : ds ≠ [])
    (hlead : ds.head? = some 0 → ds = [0]) : normCoeff ds = ds := by
  cases ds with
  | nil => exact absurd rfl hne
  | cons d t =>
      by_cases hd : d = 0
      · rw [hlead (by simp [hd])]
        rfl
      · unfold normCoeff
        rw [List.dropWhile_cons, if_neg (by simpa using hd)]

/-- Dropping leading zeros passes through a zero-run prefix. -/
theorem dropWhile_zero_replicate (k : Nat) (ds : List Nat) :
    (List.replicate k 0 ++ ds).dropWhile (· = 0) = ds.dropWhile (· = 0) := by
  induction k with
  | zero => simp
  | succ n ih =>
      rw [List.replicate_succ, List.cons_append, List.dropWhile_cons,
        if_pos (by simp)]
      exact ih

/-- Normalisation of a zero-run followed by an invariant coefficient. -/
theorem normCoeff_zero_run (k : Nat) (ds : List Nat) (hne : ds ≠ [])
    (hlead : ds.head? = some 0 → ds = [0]) :
    normCoeff (List.replicate k 0 ++ ds) = ds := by
  unfold normCoeff
  rw [dropWhile_zero_replicate]
  cases ds with
  | nil => exact absurd rfl hne
  | cons d t =>
      by_cases hd : d = 0
      · have h0 := hlead (by simp [hd])
        rw [h0]
        rfl
      · rw [List.dropWhile_cons, if_neg (by simpa using hd)]

/-- An unsigned all-digit exponent parses to its value. -/
theorem parseSignedNat_digits (ds : List Char) (hne : ds ≠ [])
    (h : ∀ c ∈ ds, c.isDigit = true) :
    parseSignedNat ('+' :: ds) = some (digitsVal ds) ∧
    parseSignedNat ('-' :: ds) = some (-(digitsVal ds : Int)) := by
  have hall : ds.all Char.isDigit = true := by
    rw [List.all_eq_true]
    intro c hc
    simpa using h c hc
  constructor <;>
    simp [parseSignedNat, hne, hall]

/-- Splitting an all-digit run followed by a stopper. -/
theorem span_digits_prefix (ys tail : List Char)
    (hys : ∀ c ∈ ys, c.isDigit = true)
    (htd : ∀ c, tail.head? = some c → c.isDigit = false) :
    (ys ++ tail).takeWhile Char.isDigit = ys ∧
    (ys ++ tail).dropWhile Char.isDigit = tail := by
  cases tail with
  | nil =>
      simp [takeWhile_all_digit ys hys, dropWhile_all_digit ys hys]
  | cons c t' =>
      exact ⟨takeWhile_digits_append_stop ys c t' hys (htd c rfl),
        dropWhile_digits_append_stop ys c t' hys (htd c rfl)⟩

/-- `parseDecimal` on a signed digit run with no decimal point:
`[-]<digits><tail>`, where the tail is empty or an exponent part. -/
theorem parseDecimal_nodot (sgn : Bool) (xs tail : List Char) (e : Int)
    (hxs : ∀ c ∈ xs, c.isDigit = true) (hxne : xs ≠ [])
    (htd : ∀ c, tail.head? = some c → (c.isDigit = false ∧ c ≠ '.'))
    (htail : parseExpTail tail = some e) :
    parseDecimal (if sgn then '-' :: (xs ++ tail) else xs ++ tail) =
      some ⟨sgn, normCoeff (xs.map charDigit), e⟩ := by
  have hsp := span_digits_prefix xs tail hxs (fun c hc => (htd c hc).1)
  have hfp : (match (xs ++ tail).dropWhile Char.isDigit with
      | '.' :: t => (t.takeWhile Char.isDigit, t.dropWhile Char.isDigit)
      | t => (([] : List Char), t)) = (([] : List Char), tail) := by
    rw [hsp.2]
    cases tail with
    | nil => rfl
    | cons c t' =>
        have hcdot : c ≠ '.' := (htd c rfl).2
        split
        · rename_i heq
          rw [List.cons.injEq] at heq
          first
          | exact absurd heq.1 hcdot
          | exact absurd heq.1.symm hcdot
        · rfl
  cases sgn with
  | false =>
      obtain ⟨x0, xr, hx0⟩ : ∃ x0 xr, xs = x0 :: xr := by
        cases hxx : xs with
        | nil => exact absurd hxx hxne
        | cons a b => exact ⟨a, b, rfl⟩
      unfold parseDecimal
      rw [if_neg Bool.false_ne_true]
      rw [show splitSign (xs ++ tail) = (false, xs ++ tail) by
        rw [hx0, List.cons_append]
        exact splitSign_digit x0 (xr ++ tail) (hxs x0 (by simp [hx0]))]
      simp only []
      rw [hsp.1, hfp]
      simp only []
      rw [if_neg (by simp [hxne])]
      rw [htail]
      simp
  | true =>
      unfold parseDecimal
      rw [if_pos rfl]
      rw [show splitSign ('-' :: (xs ++ tail)) = (true, xs ++ tail) from rfl]
      simp only []
      rw [hsp.1, hfp]
      simp only []
      rw [if_neg (by simp [hxne])]
      rw [htail]
      simp

/-- `parseDecimal` on a signed decimal-point literal:
`[-]<digits>.<digits><tail>`. -/
theorem parseDecimal_dot (sgn : Bool) (xs ys tail : List Char) (e : Int)
    (hxs : ∀ c ∈ xs, c.isDigit = true) (hys : ∀ c ∈ ys, c.isDigit = true)
    (hxne : xs ≠ [])
    (htd : ∀ c, tail.head? = some c → c.isDigit = false)
    (htail : parseExpTail tail = some e) :
    parseDecimal (if sgn then '-' :: (xs ++ '.' :: (ys ++ tail))
                  else xs ++ '.' :: (ys ++ tail)) =
      some ⟨sgn, normCoeff ((xs ++ ys).map charDigit), e - ys.length⟩ := by
  have hsp := span_digits_prefix xs ('.' :: (ys ++ tail)) hxs
    (fun c hc => by
      simp only [List.head?_cons, Option.some.injEq] at hc
      rw [← hc]
      decide)
  have hsp2 := span_digits_prefix ys tail hys htd
  have hfp : (match (xs ++ '.' :: (ys ++ tail)).dropWhile Char.isDigit with
      | '.' :: t => (t.takeWhile Char.isDigit, t.dropWhile Char.isDigit)
      | t => (([] : List Char), t)) = (ys, tail) := by
    rw [hsp.2]
    simp only []
    rw [hsp2.1, hsp2.2]
  cases sgn with
  | false =>
      obtain ⟨x0, xr, hx0⟩ : ∃ x0 xr, xs = x0 :: xr := by
        cases hxx : xs with
        | nil => exact absurd hxx hxne
        | cons a b => exact ⟨a, b, rfl⟩
      unfold parseDecimal
      rw [if_neg Bool.false_ne_true]
      rw [show splitSign (xs ++ '.' :: (ys ++ tail)) =
          (false, xs ++ '.' :: (ys ++ tail)) by
        rw [hx0, List.cons_append]
        exact splitSign_digit x0 _ (hxs x0 (by simp [hx0]))]
      simp only []
      rw [hsp.1, hfp]
      simp only []
      rw [if_neg (by simp [hxne])]
      rw [htail]
  | true =>
      unfold parseDecimal
      rw [if_pos rfl]
      rw [show splitSign ('-' :: (xs ++ '.' :: (ys ++ tail))) =
          (true, xs ++ '.' :: (ys ++ tail)) from rfl]
      simp only []
      rw [hsp.1, hfp]
      simp only []
      rw [if_neg (by simp [hxne])]
      rw [htail]

/-- Parsing `str(Decimal)` recovers the decimal exactly: sign,
coefficient digits and exponent. -/
theorem parseDecimal_decimalStr (d : PyDecimal) (hne : d.digits ≠ [])
    (hlt : ∀ x ∈ d.digits, x < 10)
    (hlead : d.digits.head? = some 0 → d.digits = [0]) :
    parseDecimal (decimalStr d) = some d := by
  obtain ⟨neg, digits, exp⟩ := d
  simp only at hne hlt hlead
  unfold decimalStr
  simp only
  by_cases hA : exp ≤ 0 ∧ -6 ≤ exp + (digits.length : Int) - 1
  · rw [if_pos hA]
    by_cases hexp : exp = 0
    · rw [if_pos hexp]
      have hxne : decimalDigitsChars digits ≠ [] := by
        simp [decimalDigitsChars, hne]
      have h := parseDecimal_nodot neg (decimalDigitsChars digits) [] 0
        (decimalDigitsChars_all_digit digits hlt) hxne
        (fun c hc => by simp at hc) rfl
      rw [List.append_nil] at h
      rw [h, map_charDigit_decimalDigitsChars digits hlt,
        normCoeff_invariant digits hne hlead, hexp]
    · rw [if_neg hexp]
      by_cases hadj : 0 ≤ exp + (digits.length : Int) - 1
      · rw [if_pos hadj]
        have hkc : (((exp + (digits.length : Int) - 1).toNat : Int)) =
            exp + (digits.length : Int) - 1 := Int.toNat_of_nonneg hadj
        have hxs := decimalDigitsChars_all_digit
          (digits.take ((exp + (digits.length : Int) - 1).toNat + 1))
          (fun x hx => hlt x (List.take_subset _ _ hx))
        have hys := decimalDigitsChars_all_digit
          (digits.drop ((exp + (digits.length : Int) - 1).toNat + 1))
          (fun x hx => hlt x (List.drop_subset _ _ hx))
        have hxne : decimalDigitsChars
            (digits.take ((exp + (digits.length : Int) - 1).toNat + 1)) ≠ [] := by
          simp only [decimalDigitsChars, ne_eq, List.map_eq_nil_iff,
            List.take_eq_nil_iff]
          simp [hne]
        have h := parseDecimal_dot neg
          (decimalDigitsChars (digits.take ((exp + (digits.length : Int) - 1).toNat + 1)))
          (decimalDigitsChars (digits.drop ((exp + (digits.length : Int) - 1).toNat + 1)))
          [] 0 hxs hys hxne (fun c hc => by simp at hc) rfl
        rw [List.append_nil] at h
        rw [h]
        simp only [Option.some.injEq, PyDecimal.mk.injEq]
        refine ⟨trivial, ?_, ?_⟩
        · unfold decimalDigitsChars
          rw [← List.map_append, List.take_append_drop]
          rw [show (List.map digitChar digits).map charDigit = digits from
            map_charDigit_decimalDigitsChars digits hlt]
          exact normCoeff_invariant digits hne hlead
        · simp only [decimalDigitsChars, List.length_map, List.length_drop]
          omega
      · rw [if_neg hadj]
        have hz : ∀ c ∈ List.replicate (-(exp + (digits.length : Int) - 1) - 1).toNat '0' ++
            decimalDigitsChars digits, c.isDigit = true := by
          intro c hc
          rcases List.mem_append.mp hc with h | h
          · rw [List.eq_of_mem_replicate h]
            decide
          · exact decimalDigitsChars_all_digit digits hlt c h
        have h := parseDecimal_dot neg ['0']
          (List.replicate (-(exp + (digits.length : Int) - 1) - 1).toNat '0' ++
            decimalDigitsChars digits)
          [] 0 (by intro c hc; simp at hc; rw [hc]; decide) hz
          (by simp) (fun c hc => by simp at hc) rfl
        rw [List.append_nil] at h
        rw [List.singleton_append] at h
        rw [h]
        simp only [Option.some.injEq, PyDecimal.mk.injEq]
        refine ⟨trivial, ?_, ?_⟩
        · rw [List.map_append, List.map_append, List.map_replicate,
            map_charDigit_decimalDigitsChars digits hlt]
          simp only [List.map_cons, List.map_nil]
          rw [show charDigit '0' = 0 from rfl]
          rw [show ((0 : Nat) :: [] ++
              (List.replicate (-(exp + (digits.length : Int) - 1) - 1).toNat 0 ++ digits)) =
              List.replicate ((-(exp + (digits.length : Int) - 1) - 1).toNat + 1) 0 ++
                digits by
            simp [List.replicate_succ]]
          exact normCoeff_zero_run _ digits hne hlead
        · have hzc : (((-(exp + (digits.length : Int) - 1) - 1).toNat : Int)) =
              -(exp + (digits.length : Int) - 1) - 1 :=
            Int.toNat_of_nonneg (by omega)
          simp only [List.length_append, List.length_replicate,
            decimalDigitsChars, List.length_map]
          omega
  · rw [if_neg hA]
    obtain ⟨d0, t, hds⟩ : ∃ d0 t, digits = d0 :: t := by
      cases hh : digits with
      | nil => exact absurd hh hne
      | cons a b => exact ⟨a, b, rfl⟩
    subst hds
    have htail : parseExpTail
        ('E' :: (if exp + (((d0 :: t)).length : Int) - 1 < 0 then
          '-' :: natRepr (-(exp + (((d0 :: t)).length : Int) - 1)).toNat
          else '+' :: natRepr (exp + (((d0 :: t)).length : Int) - 1).toNat)) =
        some (exp + (((d0 :: t)).length : Int) - 1) := by
      by_cases hlt0 : exp + (((d0 :: t)).length : Int) - 1 < 0
      · rw [if_pos hlt0]
        simp only [parseExpTail]
        rw [(parseSignedNat_digits _ (natRepr_ne_nil _) (natRepr_all_digit _)).2]
        rw [digitsVal_natRepr]
        rw [show (((-(exp + (((d0 :: t)).length : Int) - 1)).toNat : Int)) =
            -(exp + (((d0 :: t)).length : Int) - 1) from
          Int.toNat_of_nonneg (by omega)]
        simp
      · rw [if_neg hlt0]
        simp only [parseExpTail]
        rw [(parseSignedNat_digits _ (natRepr_ne_nil _) (natRepr_all_digit _)).1]
        rw [digitsVal_natRepr]
        simp only [Option.bind_eq_bind]
        simp
        omega
    have htd : ∀ c : Char,
        (('E' :: (if exp + (((d0 :: t)).length : Int) - 1 < 0 then
          '-' :: natRepr (-(exp + (((d0 :: t)).length : Int) - 1)).toNat
          else '+' :: natRepr (exp + (((d0 :: t)).length : Int) - 1).toNat)) :
            List Char).head? = some c → (c.isDigit = false ∧ c ≠ '.') := by
      intro c hc
      simp only [List.head?_cons, Option.some.injEq] at hc
      rw [← hc]
      exact ⟨by decide, by decide⟩
    have hd0 : d0 < 10 := hlt d0 (by simp)
    cases t with
    | nil =>
        have h := parseDecimal_nodot neg [digitChar d0]
          ('E' :: (if exp + (((d0 :: ([] : List Nat))).length : Int) - 1 < 0 then
            '-' :: natRepr (-(exp + (((d0 :: ([] : List Nat))).length : Int) - 1)).toNat
            else '+' :: natRepr (exp + (((d0 :: ([] : List Nat))).length : Int) - 1).toNat))
          (exp + (((d0 :: ([] : List Nat))).length : Int) - 1)
          (by intro c hc
              simp only [List.mem_singleton] at hc
              rw [hc]
              exact isDigit_digitChar d0 hd0)
          (by simp) htd htail
        rw [List.singleton_append] at h
        simp only [List.singleton_append] at h ⊢
        rw [h]
        simp only [Option.some.injEq, PyDecimal.mk.injEq]
        refine ⟨trivial, ?_, ?_⟩
        · simp only [List.map_cons, List.map_nil]
          rw [charDigit_digitChar d0 hd0]
          exact normCoeff_invariant [d0] (by simp) hlead
        · simp only [List.length_cons, List.length_nil]
          omega
    | cons t0 t' =>
        have hys := decimalDigitsChars_all_digit (t0 :: t')
          (fun x hx => hlt x (by simp [hx]))
        have h := parseDecimal_dot neg [digitChar d0]
          (decimalDigitsChars (t0 :: t'))
          ('E' :: (if exp + (((d0 :: t0 :: t')).length : Int) - 1 < 0 then
            '-' :: natRepr (-(exp + (((d0 :: t0 :: t')).length : Int) - 1)).toNat
            else '+' :: natRepr (exp + (((d0 :: t0 :: t')).length : Int) - 1).toNat))
          (exp + (((d0 :: t0 :: t')).length : Int) - 1)
          (by intro c hc
              simp only [List.mem_singleton] at hc
              rw [hc]
              exact isDigit_digitChar d0 hd0)
          hys (by simp) (fun c hc => (htd c hc).1) htail
        rw [List.singleton_append] at h
        simp only [List.cons_append, List.append_assoc] at h ⊢
        rw [h]
        simp only [Option.some.injEq, PyDecimal.mk.injEq]
        refine ⟨trivial, ?_, ?_⟩
        · simp only [List.map_cons, List.nil_append]
          rw [charDigit_digitChar d0 hd0]
          rw [show (decimalDigitsChars (t0 :: t')).map charDigit = t0 :: t' from
            map_charDigit_decimalDigitsChars (t0 :: t')
              (fun x hx => hlt x (by simp [hx]))]
          exact normCoeff_invariant (d0 :: t0 :: t') (by simp) hlead
        · simp only [decimalDigitsChars, List.length_map, List.length_cons]
          omega

/-- Every digit string folds with an accumulator like positional
notation: appending zero characters multiplies the value by ten each. -/
theorem foldl_replicate_zero (k a : Nat) :
    (List.replicate k '0').foldl (fun acc c => 10 * acc + charDigit c) a =
      a * 10 ^ k := by
  induction k generalizing a with
  | zero => simp
  | succ n ih =>
      rw [List.replicate_succ, List.foldl_cons, ih]
      have : charDigit '0' = 0 := rfl
      rw [this]
      ring

/-- Trailing zero characters scale the parsed value by powers of ten. -/
theorem digitsVal_append_replicate_zero (xs : List Char) (k : Nat) :
    digitsVal (xs ++ List.replicate k '0') = digitsVal xs * 10 ^ k := by
  unfold digitsVal
  rw [List.foldl_append]
  exact foldl_replicate_zero k _

/-- A digit run splits into its trailing-zero-stripped prefix and a run
of zeros. -/
theorem dropTrailingZeros_decomp (l : List Char) :
    ∃ k, l = dropTrailingZeros l ++ List.replicate k '0' := by
  refine ⟨(l.reverse.takeWhile (· = '0')).length, ?_⟩
  have htk : l.reverse.takeWhile (· = '0') =
      List.replicate (l.reverse.takeWhile (· = '0')).length '0' := by
    rw [List.eq_replicate_iff]
    exact ⟨rfl, fun b hb => by
      have := List.mem_takeWhile_imp hb
      simpa using this⟩
  conv_lhs => rw [← l.reverse_reverse,
    ← List.takeWhile_append_dropWhile (p := (· = '0')) (l := l.reverse)]
  rw [List.reverse_append]
  unfold dropTrailingZeros
  congr 1
  rw [htk, List.reverse_replicate]
  simp

/-- The value of the six-digit microsecond field survives
trailing-zero stripping, scaled back by `fracUsecs`. -/
theorem fracUsecs_dropTrailingZeros_padNum (us : Nat) (hus : us < 1000000) :
    fracUsecs (dropTrailingZeros (padNum 6 us)) = some us := by
  obtain ⟨k, hk⟩ := dropTrailingZeros_decomp (padNum 6 us)
  have hlen : (padNum 6 us).length = 6 := padNum_length 6 us hus (by norm_num)
  have hval : digitsVal (dropTrailingZeros (padNum 6 us)) * 10 ^ k = us := by
    rw [← digitsVal_append_replicate_zero, ← hk, digitsVal_padNum]
  have hlk : (dropTrailingZeros (padNum 6 us)).length + k = 6 := by
    have hc := congrArg List.length hk
    rw [hlen] at hc
    simp only [List.length_append, List.length_replicate] at hc
    omega
  have hdig : ∀ c ∈ dropTrailingZeros (padNum 6 us), c.isDigit = true := by
    intro c hc
    exact padNum_all_digit 6 us c (by rw [hk]; exact List.mem_append_left _ hc)
  unfold fracUsecs
  rw [if_pos ⟨by omega, by
    rw [List.all_eq_true]
    intro c hc
    simpa using hdig c hc⟩]
  rw [show 6 - (dropTrailingZeros (padNum 6 us)).length = k by omega]
  rw [hval]

/-- The stripped microsecond field of a non-zero microsecond count is
non-empty. -/
theorem dropTrailingZeros_padNum_ne_nil (us : Nat) (hus : us < 1000000)
    (h0 : us ≠ 0) : dropTrailingZeros (padNum 6 us) ≠ [] := by
  intro hnil
  obtain ⟨k, hk⟩ := dropTrailingZeros_decomp (padNum 6 us)
  rw [hnil, List.nil_append] at hk
  have := digitsVal_padNum 6 us
  rw [hk] at this
  rw [show digitsVal (List.replicate k '0') = 0 by
    have := digitsVal_append_replicate_zero [] k
    simpa [digitsVal] using this] at this
  exact h0 this.symm

/-- A `<digits><letter>` component is consumed with its value. -/
theorem parseNumComp_take (L : Char) (n : Nat) (rest : List Char)
    (hL : L.isDigit = false) :
    parseNumComp L (natRepr n ++ L :: rest) = (n, rest) := by
  unfold parseNumComp
  rw [takeWhile_digits_append_stop _ _ _ (natRepr_all_digit n) hL,
    dropWhile_digits_append_stop _ _ _ (natRepr_all_digit n) hL]
  rw [if_neg (by simp [natRepr_ne_nil])]
  simp only
  rw [if_pos trivial, digitsVal_natRepr]

/-- A component is skipped — reporting zero and leaving the input
untouched — when the input is empty or its digit run is not followed by
the component's unit letter. -/
theorem parseNumComp_skip (L : Char) (s : List Char)
    (hs : s = [] ∨ ∃ ds c rest, s = ds ++ c :: rest ∧
      (∀ x ∈ ds, x.isDigit = true) ∧ c.isDigit = false ∧ c ≠ L) :
    parseNumComp L s = (0, s) := by
  rcases hs with rfl | ⟨ds, c, rest, rfl, hds, hcd, hcL⟩
  · rfl
  · unfold parseNumComp
    rw [takeWhile_digits_append_stop _ _ _ hds hcd,
      dropWhile_digits_append_stop _ _ _ hds hcd]
    by_cases hnil : ds = []
    · rw [if_pos hnil]
    · rw [if_neg hnil]
      simp only
      rw [if_neg hcL]

/-- The empty seconds component. -/
theorem parseSecondsComp_empty : parseSecondsComp [] = some (0, 0, []) := rfl

/-- A whole-second component `<digits>S`. -/
theorem parseSecondsComp_whole (n : Nat) :
    parseSecondsComp (natRepr n ++ ['S']) = some (n, 0, []) := by
  unfold parseSecondsComp
  rw [takeWhile_digits_append_stop _ _ _ (natRepr_all_digit n) (by decide),
    dropWhile_digits_append_stop _ _ _ (natRepr_all_digit n) (by decide)]
  rw [if_neg (by simp [natRepr_ne_nil])]
  rw [digitsVal_natRepr]
  rfl

/-- A fractional-second component `<digits>.<frac>S` with the stripped
six-digit microsecond field. -/
theorem parseSecondsComp_frac (n us : Nat) (hus : us < 1000000)
    (h0 : us ≠ 0) :
    parseSecondsComp
        (natRepr n ++ '.' :: (dropTrailingZeros (padNum 6 us) ++ ['S'])) =
      some (n, us, []) := by
  have hdig : ∀ c ∈ dropTrailingZeros (padNum 6 us), c.isDigit = true := by
    obtain ⟨k, hk⟩ := dropTrailingZeros_decomp (padNum 6 us)
    intro c hc
    exact padNum_all_digit 6 us c (by rw [hk]; exact List.mem_append_left _ hc)
  unfold parseSecondsComp
  rw [takeWhile_digits_append_stop _ _ _ (natRepr_all_digit n) (by decide),
    dropWhile_digits_append_stop _ _ _ (natRepr_all_digit n) (by decide)]
  rw [if_neg (by simp [natRepr_ne_nil])]
  simp only
  rw [takeWhile_digits_append_stop _ _ _ hdig (by decide),
    dropWhile_digits_append_stop _ _ _ hdig (by decide)]
  simp only
  rw [fracUsecs_dropTrailingZeros_padNum us hus]
  simp only
  rw [if_pos (dropTrailingZeros_padNum_ne_nil us hus h0), digitsVal_natRepr]

/-- Parsing the formatted `T...` time part of a duration recovers the
four components. -/
theorem parseTimePart_format (h mi s us : Nat) (hus : us < 1000000) :
    parseTimePart ('T' ::
      ((if h ≠ 0 then natRepr h ++ ['H'] else []) ++
       ((if mi ≠ 0 then natRepr mi ++ ['M'] else []) ++
        (if s ≠ 0 ∨ us ≠ 0 then
          (if us ≠ 0 then
            natRepr s ++ '.' :: (dropTrailingZeros (padNum 6 us) ++ ['S'])
          else natRepr s ++ ['S'])
        else [])))) = some (h, mi, s, us) := by
  set SC : List Char :=
    (if s ≠ 0 ∨ us ≠ 0 then
      (if us ≠ 0 then
        natRepr s ++ '.' :: (dropTrailingZeros (padNum 6 us) ++ ['S'])
      else natRepr s ++ ['S'])
    else []) with hSC
  have hSsec : parseSecondsComp SC = some (s, us, []) := by
    rw [hSC]
    by_cases hsu : s ≠ 0 ∨ us ≠ 0
    · rw [if_pos hsu]
      by_cases hu : us ≠ 0
      · rw [if_pos hu]
        exact parseSecondsComp_frac s us hus hu
      · rw [if_neg hu]
        rw [show us = 0 by omega]
        exact parseSecondsComp_whole s
    · rw [if_neg hsu]
      rw [show s = 0 by omega, show us = 0 by omega]
      exact parseSecondsComp_empty
  have hSshape : ∀ L : Char, L.isDigit = false → 'S' ≠ L → '.' ≠ L →
      (SC = [] ∨
       ∃ ds c rest, SC = ds ++ c :: rest ∧
         (∀ x ∈ ds, x.isDigit = true) ∧ c.isDigit = false ∧ c ≠ L) := by
    intro L hLd hLs hLdot
    rw [hSC]
    by_cases hsu : s ≠ 0 ∨ us ≠ 0
    · rw [if_pos hsu]
      by_cases hu : us ≠ 0
      · rw [if_pos hu]
        exact Or.inr ⟨natRepr s, '.',
          dropTrailingZeros (padNum 6 us) ++ ['S'], rfl,
          natRepr_all_digit s, by decide, hLdot⟩
      · rw [if_neg hu]
        exact Or.inr ⟨natRepr s, 'S', [], rfl, natRepr_all_digit s,
          by decide, hLs⟩
    · rw [if_neg hsu]
      exact Or.inl rfl
  unfold parseTimePart
  simp only
  by_cases hh : h ≠ 0
  · rw [if_pos hh]
    rw [show (natRepr h ++ ['H']) ++
        ((if mi ≠ 0 then natRepr mi ++ ['M'] else []) ++ SC) =
        natRepr h ++ 'H' ::
          ((if mi ≠ 0 then natRepr mi ++ ['M'] else []) ++ SC) by simp]
    rw [parseNumComp_take 'H' h _ (by decide)]
    by_cases hm : mi ≠ 0
    · rw [if_pos hm]
      rw [show (natRepr mi ++ ['M']) ++ SC = natRepr mi ++ 'M' :: SC by simp]
      rw [parseNumComp_take 'M' mi _ (by decide)]
      rw [hSsec]
      simp only
      rw [if_pos trivial]
    · rw [if_neg hm, List.nil_append]
      rw [parseNumComp_skip 'M' SC (hSshape 'M' (by decide) (by decide) (by decide))]
      rw [hSsec]
      simp only
      rw [if_pos trivial]
      rw [show mi = 0 by omega]
  · rw [if_neg hh, List.nil_append]
    rw [parseNumComp_skip 'H'
      ((if mi ≠ 0 then natRepr mi ++ ['M'] else []) ++ SC)
      (by
        by_cases hm : mi ≠ 0
        · rw [if_pos hm]
          exact Or.inr ⟨natRepr mi, 'M', SC, by simp, natRepr_all_digit mi,
            by decide, by decide⟩
        · rw [if_neg hm, List.nil_append]
          exact hSshape 'H' (by decide) (by decide) (by decide))]
    by_cases hm : mi ≠ 0
    · rw [if_pos hm]
      rw [show (natRepr mi ++ ['M']) ++ SC = natRepr mi ++ 'M' :: SC by simp]
      rw [parseNumComp_take 'M' mi _ (by decide)]
      rw [hSsec]
      simp only
      rw [if_pos trivial]
      rw [show h = 0 by omega]
    · rw [if_neg hm, List.nil_append]
      rw [parseNumComp_skip 'M' SC (hSshape 'M' (by decide) (by decide) (by decide))]
      rw [hSsec]
      simp only
      rw [if_pos trivial]
      rw [show h = 0 by omega, show mi = 0 by omega]

/-- Parsing a formatted duration recovers the exact microsecond total,
sign included. -/
theorem parseDuration_durationIsoformat (t : Int) :
    parseDuration (durationIsoformat t) = some t := by
  by_cases ht0 : t = 0
  · subst ht0
    decide
  · unfold durationIsoformat
    simp only
    set A := t.natAbs with hA
    set US := A % 1000000 with hUS
    set S2 := A / 1000000 % 60 with hS2
    set MI := A / 1000000 / 60 % 60 with hMI
    set H2 := A / 1000000 / 60 / 60 % 24 with hH2
    set DY := A / 1000000 / 60 / 60 / 24 with hDY
    set chunkT : List Char :=
      (if H2 ≠ 0 ∨ MI ≠ 0 ∨ S2 ≠ 0 ∨ US ≠ 0 then
        'T' :: (((if H2 ≠ 0 then natRepr H2 ++ ['H'] else []) ++
           (if MI ≠ 0 then natRepr MI ++ ['M'] else [])) ++
           (if S2 ≠ 0 ∨ US ≠ 0 then
             (if US ≠ 0 then
               natRepr S2 ++ '.' :: (dropTrailingZeros (padNum 6 US) ++ ['S'])
             else natRepr S2 ++ ['S'])
           else []))
      else []) with hchunkT
    have hA0 : A ≠ 0 := by omega
    have hUSlt : US < 1000000 := by omega
    have hdecomp : (((DY * 24 + H2) * 60 + MI) * 60 + S2) * 1000000 + US = A := by
      omega
    have hret : (if DY ≠ 0 then natRepr DY ++ ['D'] else []) ++ chunkT ≠ [] := by
      by_cases hdy : DY ≠ 0
      · rw [if_pos hdy]
        simp [natRepr_ne_nil]
      · rw [if_neg hdy, List.nil_append, hchunkT]
        by_cases htp : H2 ≠ 0 ∨ MI ≠ 0 ∨ S2 ≠ 0 ∨ US ≠ 0
        · rw [if_pos htp]
          simp
        · exfalso
          omega
    rw [if_neg hret]
    have hparse : parseNumComp 'D'
        ((if DY ≠ 0 then natRepr DY ++ ['D'] else []) ++ chunkT) =
        (DY, chunkT) := by
      by_cases hdy : DY ≠ 0
      · rw [if_pos hdy]
        rw [show (natRepr DY ++ ['D']) ++ chunkT =
            natRepr DY ++ 'D' :: chunkT by simp]
        exact parseNumComp_take 'D' DY chunkT (by decide)
      · rw [if_neg hdy, List.nil_append]
        rw [parseNumComp_skip 'D' chunkT (by
          rw [hchunkT]
          by_cases htp : H2 ≠ 0 ∨ MI ≠ 0 ∨ S2 ≠ 0 ∨ US ≠ 0
          · rw [if_pos htp]
            exact Or.inr ⟨[], 'T', _, rfl, by simp, by decide, by decide⟩
          · rw [if_neg htp]
            exact Or.inl rfl)]
        rw [show DY = 0 by omega]
    have htime : parseTimePart chunkT = some (H2, MI, S2, US) := by
      rw [hchunkT]
      by_cases htp : H2 ≠ 0 ∨ MI ≠ 0 ∨ S2 ≠ 0 ∨ US ≠ 0
      · rw [if_pos htp, List.append_assoc]
        exact parseTimePart_format H2 MI S2 US hUSlt
      · rw [if_neg htp]
        rw [show H2 = 0 by omega, show MI = 0 by omega,
          show S2 = 0 by omega, show US = 0 by omega]
        rfl
    by_cases hneg : t < 0
    · rw [if_pos hneg]
      rw [List.singleton_append]
      unfold parseDuration
      rw [show splitSign ('-' :: 'P' ::
          ((if DY ≠ 0 then natRepr DY ++ ['D'] else []) ++ chunkT)) =
          (true, 'P' :: ((if DY ≠ 0 then natRepr DY ++ ['D'] else []) ++
            chunkT)) from rfl]
      simp only
      rw [hparse]
      simp only
      rw [htime]
      simp only [Option.some.injEq, if_pos trivial]
      omega
    · rw [if_neg hneg]
      rw [List.nil_append]
      unfold parseDuration
      rw [show splitSign ('P' ::
          ((if DY ≠ 0 then natRepr DY ++ ['D'] else []) ++ chunkT)) =
          (false, 'P' :: ((if DY ≠ 0 then natRepr DY ++ ['D'] else []) ++
            chunkT)) from rfl]
      simp only
      rw [hparse]
      simp only
      rw [htime]
      simp only [Option.some.injEq, Bool.false_eq_true, if_false]
      omega

/-- Parsing a formatted calendar date recovers its components. -/
theorem parseIsoDate_isoDate (y m d : Nat) (hy : y < 10000) (hm : m < 100)
    (hd : d < 100) : parseIsoDate (isoDate y m d) = some (y, m, d) := by
  have hy4 := padNum_all_digit 4 y
  have hm2 := padNum_all_digit 2 m
  have hd2 := padNum_all_digit 2 d
  unfold isoDate parseIsoDate
  simp only [List.cons_append, List.append_assoc]
  rw [spanDigits_append_stop _ _ _ hy4 (by decide)]
  simp only
  rw [spanDigits_append_stop _ _ _ hm2 (by decide)]
  simp only
  rw [spanDigits_all _ hd2]
  simp only
  rw [if_pos ⟨padNum_length 4 y hy (by norm_num),
    padNum_length 2 m hm (by norm_num), padNum_length 2 d hd (by norm_num),
    trivial⟩]
  rw [digitsVal_padNum, digitsVal_padNum, digitsVal_padNum]

/-- Parsing a formatted time of day recovers its components. -/
theorem parseIsoTime_isoTime (h mi s us : Nat) (hh : h < 100) (hmi : mi < 100)
    (hs : s < 100) (hus : us < 1000000) :
    parseIsoTime (isoTime h mi s us) = some (h, mi, s, us) := by
  have hh2 := padNum_all_digit 2 h
  have hm2 := padNum_all_digit 2 mi
  have hs2 := padNum_all_digit 2 s
  have hlen : (padNum 6 us).length = 6 := padNum_length 6 us hus (by norm_num)
  unfold isoTime parseIsoTime
  by_cases h0 : us = 0
  · subst h0
    rw [if_pos rfl]
    simp only [List.append_nil, List.cons_append, List.append_assoc]
    rw [spanDigits_append_stop _ _ _ hh2 (by decide)]
    simp only
    rw [spanDigits_append_stop _ _ _ hm2 (by decide)]
    simp only
    rw [spanDigits_all _ hs2]
    simp only
    rw [if_pos ⟨padNum_length 2 h hh (by norm_num),
      padNum_length 2 mi hmi (by norm_num),
      padNum_length 2 s hs (by norm_num)⟩]
    rw [digitsVal_padNum, digitsVal_padNum, digitsVal_padNum]
  · rw [if_neg h0]
    simp only [List.cons_append, List.append_assoc]
    rw [spanDigits_append_stop _ _ _ hh2 (by decide)]
    simp only
    rw [spanDigits_append_stop _ _ _ hm2 (by decide)]
    simp only
    rw [spanDigits_append_stop _ _ _ hs2 (by decide)]
    simp only
    rw [if_pos ⟨padNum_length 2 h hh (by norm_num),
      padNum_length 2 mi hmi (by norm_num),
      padNum_length 2 s hs (by norm_num)⟩]
    rw [spanDigits_all _ (padNum_all_digit 6 us)]
    simp only
    have hfne : padNum 6 us ≠ [] := by
      intro hz
      rw [hz] at hlen
      simp at hlen
    rw [if_pos ⟨hfne, trivial⟩]
    unfold fracUsecs
    rw [if_pos ⟨by omega, by
      rw [List.all_eq_true]
      intro c hc
      simpa using padNum_all_digit 6 us c hc⟩]
    rw [hlen]
    simp only [Nat.sub_self, pow_zero, Nat.mul_one]
    rw [digitsVal_padNum, digitsVal_padNum, digitsVal_padNum, digitsVal_padNum]

/-- Parsing a formatted naive datetime recovers its components. -/
theorem parseIsoDatetime_isoDatetime (y mo d h mi s us : Nat)
    (hy : y < 10000) (hmo : mo < 100) (hd : d < 100) (hh : h < 100)
    (hmi : mi < 100) (hs : s < 100) (hus : us < 1000000) :
    parseIsoDatetime (isoDatetime y mo d h mi s us) =
      some (y, mo, d, h, mi, s, us) := by
  have hy4 := padNum_all_digit 4 y
  have hm2 := padNum_all_digit 2 mo
  have hd2 := padNum_all_digit 2 d
  unfold isoDatetime isoDate parseIsoDatetime
  simp only [List.cons_append, List.append_assoc]
  rw [spanDigits_append_stop _ _ _ hy4 (by decide)]
  simp only
  rw [spanDigits_append_stop _ _ _ hm2 (by decide)]
  simp only
  rw [spanDigits_append_stop _ _ _ hd2 (by decide)]
  simp only
  rw [if_pos ⟨padNum_length 4 y hy (by norm_num),
    padNum_length 2 mo hmo (by norm_num), padNum_length 2 d hd (by norm_num)⟩]
  rw [parseIsoTime_isoTime h mi s us hh hmi hs hus]
  rw [digitsVal_padNum, digitsVal_padNum, digitsVal_padNum]

/-- Assigning a key makes it present with the assigned value. -/
theorem dictLookup_dictSet_self (es : List (String × PyVal)) (k : String)
    (v : PyVal) : dictLookup (dictSet es k v) k = some v := by
  induction es with
  | nil => simp [dictSet, dictLookup]
  | cons hd tl ih =>
      obtain ⟨k', v'⟩ := hd
      by_cases hk : k' = k
      · subst hk
        simp [dictSet, dictLookup]
      · simp [dictSet, dictLookup, hk, ih]

/-- C8: record equality is: same model name, and either both saved with
the same id or both unsaved with (extensionally) equal value containers.
A saved record compares by id only — local edits to `_values` are
ignored — and records of different model names are never equal. -/
theorem C8_record_equality (a b : RecordInst) :
    (a.pyEq b = true ↔
      (a.modelName = b.modelName ∧
        ((a.idVal.truthy = true ∧ b.idVal.truthy = true ∧ a.idVal = b.idVal) ∨
         (a.idVal.truthy = false ∧ b.idVal.truthy = false ∧
          dictPyEq a.values.entries b.values.entries = true)))) ∧
    (a.modelName ≠ b.modelName → a.pyEq b = false) := by
  have hid : dictPyEq a.values.entries b.values.entries = true →
      a.idVal = b.idVal := by
    intro h
    unfold RecordInst.idVal
    rw [dictPyEq_lookup h "id"]
  have main : a.pyEq b = true ↔
      (a.modelName = b.modelName ∧
        ((a.idVal.truthy = true ∧ b.idVal.truthy = true ∧ a.idVal = b.idVal) ∨
         (a.idVal.truthy = false ∧ b.idVal.truthy = false ∧
          dictPyEq a.values.entries b.values.entries = true))) := by
    unfold RecordInst.pyEq
    split_ifs with h1 h2 h3
    · constructor
      · intro h; exact absurd h (by simp)
      · rintro ⟨hname, _⟩; exact absurd hname.symm h1
    · rw [Bool.and_eq_true, decide_eq_true_eq] at h2
      constructor
      · intro h; exact absurd h (by simp)
      · rintro ⟨_, hsaved | hunsaved⟩
        · exact absurd hsaved.2.2.symm h2.2
        · rw [hunsaved.1] at h2; exact absurd h2.1 (by simp)
    · rw [Bool.and_eq_true, Bool.not_eq_true', Bool.not_eq_true'] at h3
      constructor
      · intro h; exact absurd h (by simp)
      · rintro ⟨_, hsaved | hunsaved⟩
        · rw [hsaved.1] at h3; exact absurd h3.1 (by simp)
        · exact absurd hunsaved.2.2 (by simp [h3.2])
    · rw [Bool.and_eq_true, decide_eq_true_eq, not_and_or] at h2
      rw [Bool.and_eq_true, Bool.not_eq_true', Bool.not_eq_true', not_and_or] at h3
      have hname : a.modelName = b.modelName := by
        by_contra hne
        exact h1 (fun h => hne h.symm)
      simp only [true_iff, Bool.true_eq]
      refine ⟨hname, ?_⟩
      by_cases hat : a.idVal.truthy = true
      · left
        have hbeq : b.idVal = a.idVal := by
          rcases h2 with h2 | h2
          · exact absurd hat (by simp [h2])
          · by_contra hne; exact h2 hne
        refine ⟨hat, ?_, hbeq.symm⟩
        rw [hbeq]; exact hat
      · right
        have haf : a.idVal.truthy = false := by simpa using hat
        have hpe : dictPyEq a.values.entries b.values.entries = true := by
          rcases h3 with h3 | h3
          · exact absurd haf h3
          · simpa using h3
        have := hid hpe
        refine ⟨by simpa using hat, ?_, hpe⟩
        rw [← this]; simpa using hat
  refine ⟨main, fun hne => ?_⟩
  cases hval : a.pyEq b with
  | false => rfl
  | true =>
      obtain ⟨hname, _⟩ := main.mp hval
      exact absurd hname hne

/-- Witness for C8 at concrete records: two saved `res.user` records with
id 7 are equal although one carries an unsaved local edit, and a
`res.user` record is never equal to a `party.party` record with the same
id. -/
theorem C8_record_equality_witness :
    RecordInst.pyEq
      ⟨"res.user", ⟨[("id", PyVal.int 7), ("name", PyVal.str "edited")], ["name"]⟩⟩
      ⟨"res.user", ⟨[("id", PyVal.int 7), ("name", PyVal.str "Jon")], []⟩⟩ = true ∧
    RecordInst.pyEq
      ⟨"res.user", ⟨[("id", PyVal.int 7)], []⟩⟩
      ⟨"party.party", ⟨[("id", PyVal.int 7)], []⟩⟩ = false := by
  constructor
  · exact (C8_record_equality
      ⟨"res.user", ⟨[("id", PyVal.int 7), ("name", PyVal.str "edited")], ["name"]⟩⟩
      ⟨"res.user", ⟨[("id", PyVal.int 7), ("name", PyVal.str "Jon")], []⟩⟩).1.mpr
      (by refine ⟨rfl, Or.inl ⟨?_, ?_, ?_⟩⟩ <;> decide)
  · exact (C8_record_equality
      ⟨"res.user", ⟨[("id", PyVal.int 7)], []⟩⟩
      ⟨"party.party", ⟨[("id", PyVal.int 7)], []⟩⟩).2 (by decide)

/-- C9: `save()` on a saved record issues exactly one write carrying the
dirty fields when the dirty set is non-empty and zero writes when it is
empty; on an unsaved record it issues exactly one create from the full
value set and reads back under the adopted id; every path issues zero
creates-or-writes beyond that and exactly one refresh read, after which
the value container is replaced by the fetched row and the dirty set is
empty. -/
theorem C9_save_lifecycle (cls : ModelClass) (r : RecordInst) (createdId : Int)
    (row : List (String × PyVal)) :
    (r.idVal.truthy = true →
      ∃ r2 ops, modelSave cls r createdId row = .ok (r2, ops) ∧
        ops.filter RpcOp.isWrite =
          (if r.changesDict = [] then []
           else [RpcOp.write [r.idVal] r.changesDict]) ∧
        ops.filter RpcOp.isCreate = [] ∧
        ops.filter RpcOp.isRead = [RpcOp.readRows [r.idVal] cls.fieldNames] ∧
        r2.values = ModificationTrackingDict.ofDict row ∧
        r2.values.changes = []) ∧
    (r.idVal.truthy = false → createdId ≠ 0 →
      ∃ r2 ops, modelSave cls r createdId row = .ok (r2, ops) ∧
        ops.filter RpcOp.isWrite = [] ∧
        ops.filter RpcOp.isCreate = [RpcOp.create [r.values.entries]] ∧
        ops.filter RpcOp.isRead =
          [RpcOp.readRows [PyVal.int createdId] cls.fieldNames] ∧
        r2.values = ModificationTrackingDict.ofDict row ∧
        r2.values.changes = []) := by
  constructor
  · intro hidv
    by_cases hch : r.changesDict = []
    · refine ⟨{ r with values := ModificationTrackingDict.ofDict row },
        (if cls.hasCacheBackend then [RpcOp.cacheDelete r.idVal] else []) ++
          [RpcOp.readRows [r.idVal] cls.fieldNames],
        ?_, ?_, ?_, ?_, rfl, rfl⟩ <;>
        cases hcb : cls.hasCacheBackend <;>
          simp [modelSave, modelRefresh, hidv, hch, hcb,
            RpcOp.isWrite, RpcOp.isCreate, RpcOp.isRead]
    · refine ⟨{ r with values := ModificationTrackingDict.ofDict row },
        RpcOp.write [r.idVal] r.changesDict ::
          ((if cls.hasCacheBackend then [RpcOp.cacheDelete r.idVal] else []) ++
            [RpcOp.readRows [r.idVal] cls.fieldNames]),
        ?_, ?_, ?_, ?_, rfl, rfl⟩ <;>
        cases hcb : cls.hasCacheBackend <;>
          simp [modelSave, modelRefresh, hidv, hch, hcb,
            RpcOp.isWrite, RpcOp.isCreate, RpcOp.isRead]
  · intro hidv hcid
    have hnew : (RecordInst.idVal
        { r with values := r.values.setItem "id" (PyVal.int createdId) }) =
          PyVal.int createdId := by
      unfold RecordInst.idVal ModificationTrackingDict.setItem
      simp [dictLookup_dictSet_self]
    refine ⟨{ r with values := ModificationTrackingDict.ofDict row },
      RpcOp.create [r.values.entries] ::
        ((if cls.hasCacheBackend then [RpcOp.cacheDelete (PyVal.int createdId)]
          else []) ++
          [RpcOp.readRows [PyVal.int createdId] cls.fieldNames]),
      ?_, ?_, ?_, ?_, rfl, rfl⟩
    all_goals
      have htr : (PyVal.int createdId).truthy = true := by
        simp [PyVal.truthy, hcid]
    all_goals
      cases hcb : cls.hasCacheBackend <;>
        simp [modelSave, modelRefresh, hidv, hnew, htr, hcb,
          RpcOp.isWrite, RpcOp.isCreate, RpcOp.isRead]

/-- Witness for C9 at concrete records: a saved `res.user` with one dirty
field refreshes under its own id 7; an unsaved one creates from its full
value set and reads back under the adopted id 5. -/
theorem C9_save_lifecycle_witness :
    (RecordInst.idVal
      ⟨"res.user", ⟨[("id", PyVal.int 7), ("name", PyVal.str "x")],
        ["name"]⟩⟩).truthy = true ∧
    (RecordInst.idVal
      ⟨"res.user", ⟨[("name", PyVal.str "x")], ["name"]⟩⟩).truthy = false ∧
    (5 : Int) ≠ 0 ∧
    (∃ r2 ops,
      modelSave ⟨"res.user", ["id", "name"], false⟩
        ⟨"res.user", ⟨[("id", PyVal.int 7), ("name", PyVal.str "x")], ["name"]⟩⟩
        5 [("id", PyVal.int 7), ("name", PyVal.str "srv")] = .ok (r2, ops) ∧
      ops.filter RpcOp.isRead = [RpcOp.readRows [PyVal.int 7] ["id", "name"]]) ∧
    (∃ r2 ops,
      modelSave ⟨"res.user", ["id", "name"], false⟩
        ⟨"res.user", ⟨[("name", PyVal.str "x")], ["name"]⟩⟩
        5 [("id", PyVal.int 5), ("name", PyVal.str "srv")] = .ok (r2, ops) ∧
      ops.filter RpcOp.isCreate = [RpcOp.create [[("name", PyVal.str "x")]]]) := by
  refine ⟨by decide, by decide, by decide, ?_, ?_⟩
  · obtain ⟨r2, ops, heq, _, _, hr, _, _⟩ :=
      (C9_save_lifecycle ⟨"res.user", ["id", "name"], false⟩
        ⟨"res.user", ⟨[("id", PyVal.int 7), ("name", PyVal.str "x")], ["name"]⟩⟩
        5 [("id", PyVal.int 7), ("name", PyVal.str "srv")]).1 (by decide)
    exact ⟨r2, ops, heq, hr⟩
  · obtain ⟨r2, ops, heq, _, hc, _, _, _⟩ :=
      (C9_save_lifecycle ⟨"res.user", ["id", "name"], false⟩
        ⟨"res.user", ⟨[("name", PyVal.str "x")], ["name"]⟩⟩
        5 [("id", PyVal.int 5), ("name", PyVal.str "srv")]).2 (by decide) (by decide)
    exact ⟨r2, ops, heq, hc⟩

/-- C3: the transport layer's response classification.  Status 200 yields
the decoded body; 400 with a body flagged `'UserError'` raises
`UserError` with the body's message and code; any other 400 body raises
`ClientError`; 401 raises `AuthenticationError`; every other 4xx raises
`ClientError` carrying the decoded or raw message and the status; every
5xx raises `ServerError` carrying the raw message, the status and the
optional `X-Sentry-ID` incident header; and no non-200 response is
swallowed — every one raises. -/
theorem C3_response_classification (rv : HttpResponse) :
    (rv.status = 200 → json_response rv = .ok rv.decodedBody) ∧
    (rv.status = 400 → rv.decodedErr.typeField = some "UserError" →
      json_response rv =
        .error (.userError rv.decodedErr.message rv.decodedErr.code)) ∧
    (rv.status = 400 → rv.decodedErr.typeField ≠ some "UserError" →
      json_response rv =
        .error (.clientError (.ofBody rv.decodedErr) rv.status)) ∧
    (rv.status = 401 →
      json_response rv =
        .error (.authenticationError (.ofBody rv.decodedErr) rv.status)) ∧
    (402 ≤ rv.status → rv.status < 500 →
      ∃ msg, json_response rv = .error (.clientError msg rv.status) ∧
        (msg = PyObj.ofStr rv.text ∨
         ∃ m, rv.decodedErr.message = some m ∧ msg = PyObj.ofVal m)) ∧
    (500 ≤ rv.status → rv.status ≤ 599 →
      json_response rv =
        .error (.serverError rv.text rv.status rv.sentryId)) ∧
    (rv.status ≠ 200 → ∃ e, json_response rv = .error e) := by
  refine ⟨fun h => ?_, fun h h2 => ?_, fun h h2 => ?_, fun h => ?_,
    fun h1 h2 => ?_, fun h1 h2 => ?_, fun h => ?_⟩
  · simp [json_response, h]
  · simp [json_response, h, h2]
  · simp [json_response, h, h2]
  · simp [json_response, h]
  · unfold json_response
    rw [if_pos (by omega), if_neg (by omega), if_neg (by omega),
      if_pos ⟨h1, h2⟩]
    by_cases hct : rv.contentTypeJson
    · cases hm : rv.decodedErr.message with
      | some m => exact ⟨PyObj.ofVal m, by simp [hct, hm], Or.inr ⟨m, rfl, rfl⟩⟩
      | none => exact ⟨PyObj.ofStr rv.text, by simp [hct, hm], Or.inl rfl⟩
    · exact ⟨PyObj.ofStr rv.text, by simp [hct], Or.inl rfl⟩
  · unfold json_response
    rw [if_pos (by omega), if_neg (by omega), if_neg (by omega),
      if_neg (by omega)]
  · unfold json_response
    rw [if_pos h]
    split_ifs <;> exact ⟨_, rfl⟩

/-- Witness for C3 at concrete responses covering every branch:
200 (success), 400 flagged `UserError`, 400 unflagged, 401, 404 with a
JSON body carrying a message, and 500 with an `X-Sentry-ID` header. -/
theorem C3_response_classification_witness :
    json_response ⟨200, "ok-body", PyVal.str "decoded",
        ⟨Option.none, Option.none, Option.none⟩, false, Option.none⟩ =
      .ok (PyVal.str "decoded") ∧
    json_response ⟨400, "t", PyVal.none,
        ⟨some "UserError", some (PyVal.str "bad qty"), some (PyVal.str "E1")⟩,
        true, Option.none⟩ =
      .error (.userError (some (PyVal.str "bad qty")) (some (PyVal.str "E1"))) ∧
    json_response ⟨400, "t", PyVal.none,
        ⟨some "Other", some (PyVal.str "m"), Option.none⟩, true, Option.none⟩ =
      .error (.clientError
        (.ofBody ⟨some "Other", some (PyVal.str "m"), Option.none⟩) 400) ∧
    json_response ⟨401, "t", PyVal.none,
        ⟨Option.none, some (PyVal.str "expired"), Option.none⟩, true,
        Option.none⟩ =
      .error (.authenticationError
        (.ofBody ⟨Option.none, some (PyVal.str "expired"), Option.none⟩) 401) ∧
    (∃ msg, json_response ⟨404, "not found", PyVal.none,
        ⟨Option.none, some (PyVal.str "No such record"), Option.none⟩, true,
        Option.none⟩ = .error (.clientError msg 404) ∧
      (msg = PyObj.ofStr "not found" ∨
       ∃ m, (some (PyVal.str "No such record") : Option PyVal) = some m ∧
         msg = PyObj.ofVal m)) ∧
    json_response ⟨500, "boom", PyVal.none,
        ⟨Option.none, Option.none, Option.none⟩, false, some "SENTRY-1"⟩ =
      .error (.serverError "boom" 500 (some "SENTRY-1")) := by
  refine ⟨?_, ?_, ?_, ?_, ?_, ?_⟩
  · exact (C3_response_classification _).1 rfl
  · exact (C3_response_classification _).2.1 rfl rfl
  · exact (C3_response_classification _).2.2.1 rfl (by simp)
  · exact (C3_response_classification _).2.2.2.1 rfl
  · exact (C3_response_classification _).2.2.2.2.1 (by decide) (by decide)
  · exact (C3_response_classification _).2.2.2.2.2.1 (by decide) (by decide)

/-- C5: `refresh_if_needed` polls exactly in states PENDING/STARTED, but
its error branch is broken: on a response carrying an `error` field the
handle's state is left unchanged (line 587 reads
`self.state == self.FAILURE`, a comparison where an assignment was
intended) and constructing the `ServerError` itself fails with
`TypeError` because the required `code` argument of
`ServerError.__init__` is not passed — so no `ServerError` is raised and
the state never becomes FAILURE.  The success branch adopts the reported
state and result as the claim says, and no poll happens in
SUCCESS/FAILURE/RETRY. -/
theorem C5_refresh_if_needed_failure_branch_broken :
    refresh_if_needed ⟨"PENDING", Option.none⟩
        ⟨some (PyVal.str "boom"), Option.none, Option.none⟩ =
      (true, ⟨"PENDING", Option.none⟩,
        some (.typeErr
          "__init__() missing 1 required positional argument: code")) ∧
    refresh_if_needed ⟨"STARTED", Option.none⟩
        ⟨some (PyVal.str "boom"), Option.none, Option.none⟩ =
      (true, ⟨"STARTED", Option.none⟩,
        some (.typeErr
          "__init__() missing 1 required positional argument: code")) ∧
    refresh_if_needed ⟨"STARTED", Option.none⟩
        ⟨Option.none, some "SUCCESS", some (PyVal.int 42)⟩ =
      (true, ⟨"SUCCESS", some (PyVal.int 42)⟩, Option.none) ∧
    refresh_if_needed ⟨"SUCCESS", some (PyVal.int 42)⟩
        ⟨some (PyVal.str "boom"), Option.none, Option.none⟩ =
      (false, ⟨"SUCCESS", some (PyVal.int 42)⟩, Option.none) ∧
    refresh_if_needed ⟨"FAILURE", Option.none⟩
        ⟨some (PyVal.str "boom"), Option.none, Option.none⟩ =
      (false, ⟨"FAILURE", Option.none⟩, Option.none) ∧
    refresh_if_needed ⟨"RETRY", Option.none⟩
        ⟨some (PyVal.str "boom"), Option.none, Option.none⟩ =
      (false, ⟨"RETRY", Option.none⟩, Option.none) := by
  refine ⟨?_, ?_, ?_, ?_, ?_, ?_⟩ <;> simp [refresh_if_needed]



theorem b64CharVal_b64Char : ∀ v : Nat, v < 64 → b64CharVal (b64Char v) = some v := by
  decide

theorem b64Char_ne_newline : ∀ v : Nat, v < 64 → b64Char v ≠ '\n' := by decide

theorem b64Char_ne_eq : ∀ v : Nat, v < 64 → b64Char v ≠ '=' := by decide

theorem b64decode_b64encode_append (bs : List Nat) (hb : ∀ x ∈ bs, x < 256)
    (h3 : bs.length % 3 = 0) (t : List Char) :
    b64decode (b64encode bs ++ t) = (b64decode t).map (fun tl => bs ++ tl) := by
  induction bs using b64encode.induct with
  | case1 =>
      simp [b64encode]
  | case2 a =>
      simp at h3
  | case3 a b =>
      simp at h3
  | case4 a b c rest ih =>
      have ha : a < 256 := hb a (by simp)
      have hbb : b < 256 := hb b (by simp)
      have hc : c < 256 := hb c (by simp)
      have h3' : rest.length % 3 = 0 := by
        simp [List.length_cons] at h3
        omega
      have hb' : ∀ x ∈ rest, x < 256 := fun x hx => hb x (by simp [hx])
      rw [b64encode]
      simp only [List.cons_append]
      rw [b64decode]
      rw [b64CharVal_b64Char _ (by omega), b64CharVal_b64Char _ (by omega)]
      simp only
      rw [if_neg (b64Char_ne_eq _ (by omega))]
      rw [b64CharVal_b64Char _ (by omega)]
      simp only
      rw [if_neg (b64Char_ne_eq _ (by omega))]
      rw [b64CharVal_b64Char _ (by omega)]
      simp only
      rw [ih hb' h3']
      cases b64decode t with
      | none => rfl
      | some tl =>
          simp only [Option.map, List.cons_append, Option.some.injEq,
            List.cons.injEq]
          refine ⟨by omega, by omega, by omega, trivial⟩


theorem b64decode_b64encode (bs : List Nat) (hb : ∀ x ∈ bs, x < 256) :
    b64decode (b64encode bs) = some bs := by
  induction bs using b64encode.induct with
  | case1 => rfl
  | case2 a =>
      have ha : a < 256 := hb a (by simp)
      rw [b64encode, b64decode]
      rw [b64CharVal_b64Char _ (by omega), b64CharVal_b64Char _ (by omega)]
      simp only
      rw [if_pos trivial, if_pos ⟨trivial, trivial⟩]
      simp only [Option.some.injEq, List.cons.injEq]
      refine ⟨by omega, trivial⟩
  | case3 a b =>
      have ha : a < 256 := hb a (by simp)
      have hbb : b < 256 := hb b (by simp)
      rw [b64encode, b64decode]
      rw [b64CharVal_b64Char _ (by omega), b64CharVal_b64Char _ (by omega)]
      simp only
      rw [if_neg (b64Char_ne_eq _ (by omega))]
      rw [b64CharVal_b64Char _ (by omega)]
      simp only
      rw [if_pos trivial, if_pos trivial]
      simp only [Option.some.injEq, List.cons.injEq]
      refine ⟨by omega, by omega, trivial⟩
  | case4 a b c rest ih =>
      have ha : a < 256 := hb a (by simp)
      have hbb : b < 256 := hb b (by simp)
      have hc : c < 256 := hb c (by simp)
      have hb' : ∀ x ∈ rest, x < 256 := fun x hx => hb x (by simp [hx])
      rw [b64encode, b64decode]
      rw [b64CharVal_b64Char _ (by omega), b64CharVal_b64Char _ (by omega)]
      simp only
      rw [if_neg (b64Char_ne_eq _ (by omega))]
      rw [b64CharVal_b64Char _ (by omega)]
      simp only
      rw [if_neg (b64Char_ne_eq _ (by omega))]
      rw [b64CharVal_b64Char _ (by omega)]
      simp only
      rw [ih hb']
      simp only [Option.map, Option.some.injEq, List.cons.injEq]
      refine ⟨by omega, by omega, by omega, trivial⟩

theorem b64encode_filter_newline (bs : List Nat) (hb : ∀ x ∈ bs, x < 256) :
    (b64encode bs).filter (fun c => c ≠ '\n') = b64encode bs := by
  induction bs using b64encode.induct with
  | case1 => rfl
  | case2 a =>
      have ha : a < 256 := hb a (by simp)
      rw [b64encode]
      simp [List.filter_cons, b64Char_ne_newline _ (by omega : a / 4 < 64),
        b64Char_ne_newline _ (by omega : a % 4 * 16 < 64)]
  | case3 a b =>
      have ha : a < 256 := hb a (by simp)
      have hbb : b < 256 := hb b (by simp)
      rw [b64encode]
      simp [List.filter_cons, b64Char_ne_newline _ (by omega : a / 4 < 64),
        b64Char_ne_newline _ (by omega : a % 4 * 16 + b / 16 < 64),
        b64Char_ne_newline _ (by omega : b % 16 * 4 < 64)]
  | case4 a b c rest ih =>
      have ha : a < 256 := hb a (by simp)
      have hbb : b < 256 := hb b (by simp)
      have hc : c < 256 := hb c (by simp)
      have hb' : ∀ x ∈ rest, x < 256 := fun x hx => hb x (by simp [hx])
      rw [b64encode]
      simp only [List.filter_cons]
      rw [ih hb']
      simp [b64Char_ne_newline _ (by omega : a / 4 < 64),
        b64Char_ne_newline _ (by omega : a % 4 * 16 + b / 16 < 64),
        b64Char_ne_newline _ (by omega : b % 16 * 4 + c / 64 < 64),
        b64Char_ne_newline _ (by omega : c % 64 < 64)]

theorem decodestring_encodestring (bs : List Nat) (hb : ∀ x ∈ bs, x < 256) :
    decodestring (encodestring bs) = some bs := by
  induction bs using encodestring.induct with
  | case1 =>
      rw [encodestring]
      rfl
  | case2 bs h ih =>
      have hbtake : ∀ x ∈ bs.take 57, x < 256 :=
        fun x hx => hb x (List.mem_of_mem_take hx)
      have hbdrop : ∀ x ∈ bs.drop 57, x < 256 :=
        fun x hx => hb x (List.mem_of_mem_drop hx)
      rw [encodestring, dif_neg h]
      unfold decodestring
      rw [List.filter_append, List.filter_cons]
      rw [if_neg (by decide)]
      rw [b64encode_filter_newline _ hbtake]
      by_cases hlen : bs.length ≤ 57
      · rw [List.drop_eq_nil_of_le hlen]
        rw [show encodestring [] = [] from by rw [encodestring]; rfl]
        simp only [List.filter_nil, List.append_nil]
        rw [List.take_of_length_le hlen]
        exact b64decode_b64encode bs hb
      · have h3 : (bs.take 57).length % 3 = 0 := by
          rw [List.length_take]
          omega
        rw [b64decode_b64encode_append _ hbtake h3]
        have ihd := ih hbdrop
        unfold decodestring at ihd
        rw [ihd]
        simp only [Option.map, Option.some.injEq]
        exact List.take_append_drop 57 bs



theorem decode_taggedEnvelope (tag field : String) (s : String) :
    decode (taggedEnvelope tag field (.jStr s)) =
      dispatchTag [("__class__", .vStr tag), (field, .vStr s)] := rfl

theorem decode_encode_date (y m d : Nat) (hy : y < 10000) (hm : m < 100)
    (hd : d < 100) :
    decode (encode (.vDate y m d)) = some (.vDate y m d) := by
  rw [show encode (SVal.vDate y m d) = taggedEnvelope "date" "iso_string"
    (.jStr ⟨isoDate y m d⟩) from rfl]
  rw [decode_taggedEnvelope]
  rw [show dispatchTag [("__class__", SVal.vStr "date"),
      ("iso_string", SVal.vStr ⟨isoDate y m d⟩)] =
    decodeDate [("__class__", SVal.vStr "date"),
      ("iso_string", SVal.vStr ⟨isoDate y m d⟩)] from rfl]
  unfold decodeDate
  rw [show lookupSV [("__class__", SVal.vStr "date"),
      ("iso_string", SVal.vStr ⟨isoDate y m d⟩)] "iso_string" =
    some (SVal.vStr ⟨isoDate y m d⟩) from rfl]
  simp only
  rw [if_pos (by
    show svTruthy (SVal.vStr ⟨isoDate y m d⟩) = true
    simp [svTruthy, isoDate, String.ext_iff])]
  rw [parseIsoDate_isoDate y m d hy hm hd]
  rfl


theorem decode_encode_time (h mi s us : Nat) (hh : h < 100) (hmi : mi < 100)
    (hs : s < 100) (hus : us < 1000000) :
    decode (encode (.vTime h mi s us)) = some (.vTime h mi s us) := by
  rw [show encode (SVal.vTime h mi s us) = taggedEnvelope "time" "iso_string"
    (.jStr ⟨isoTime h mi s us⟩) from rfl]
  rw [decode_taggedEnvelope]
  rw [show dispatchTag [("__class__", SVal.vStr "time"),
      ("iso_string", SVal.vStr ⟨isoTime h mi s us⟩)] =
    decodeTime [("__class__", SVal.vStr "time"),
      ("iso_string", SVal.vStr ⟨isoTime h mi s us⟩)] from rfl]
  unfold decodeTime
  rw [show lookupSV [("__class__", SVal.vStr "time"),
      ("iso_string", SVal.vStr ⟨isoTime h mi s us⟩)] "iso_string" =
    some (SVal.vStr ⟨isoTime h mi s us⟩) from rfl]
  simp only
  rw [if_pos (by
    show svTruthy (SVal.vStr ⟨isoTime h mi s us⟩) = true
    simp [svTruthy, isoTime, String.ext_iff])]
  rw [parseIsoTime_isoTime h mi s us hh hmi hs hus]
  rfl

theorem decode_encode_datetime (y mo d h mi s us : Nat) (hy : y < 10000)
    (hmo : mo < 100) (hd : d < 100) (hh : h < 100) (hmi : mi < 100)
    (hs : s < 100) (hus : us < 1000000) :
    decode (encode (.vDatetime y mo d h mi s us)) =
      some (.vDatetime y mo d h mi s us) := by
  rw [show encode (SVal.vDatetime y mo d h mi s us) =
    taggedEnvelope "datetime" "iso_string"
    (.jStr ⟨isoDatetime y mo d h mi s us⟩) from rfl]
  rw [decode_taggedEnvelope]
  rw [show dispatchTag [("__class__", SVal.vStr "datetime"),
      ("iso_string", SVal.vStr ⟨isoDatetime y mo d h mi s us⟩)] =
    decodeDatetime [("__class__", SVal.vStr "datetime"),
      ("iso_string", SVal.vStr ⟨isoDatetime y mo d h mi s us⟩)] from rfl]
  unfold decodeDatetime
  rw [show lookupSV [("__class__", SVal.vStr "datetime"),
      ("iso_string", SVal.vStr ⟨isoDatetime y mo d h mi s us⟩)] "iso_string" =
    some (SVal.vStr ⟨isoDatetime y mo d h mi s us⟩) from rfl]
  simp only
  rw [if_pos (by
    show svTruthy (SVal.vStr ⟨isoDatetime y mo d h mi s us⟩) = true
    simp [svTruthy, isoDatetime, isoDate, String.ext_iff])]
  rw [parseIsoDatetime_isoDatetime y mo d h mi s us hy hmo hd hh hmi hs hus]
  rfl

theorem decode_encode_timedelta (t : Int) :
    decode (encode (.vTimedelta t)) = some (.vTimedelta t) := by
  rw [show encode (SVal.vTimedelta t) = taggedEnvelope "timedelta" "iso_string"
    (.jStr ⟨durationIsoformat t⟩) from rfl]
  rw [decode_taggedEnvelope]
  rw [show dispatchTag [("__class__", SVal.vStr "timedelta"),
      ("iso_string", SVal.vStr ⟨durationIsoformat t⟩)] =
    decodeTimedelta [("__class__", SVal.vStr "timedelta"),
      ("iso_string", SVal.vStr ⟨durationIsoformat t⟩)] from rfl]
  unfold decodeTimedelta
  rw [show lookupSV [("__class__", SVal.vStr "timedelta"),
      ("iso_string", SVal.vStr ⟨durationIsoformat t⟩)] "iso_string" =
    some (SVal.vStr ⟨durationIsoformat t⟩) from rfl]
  simp only
  rw [if_pos (by
    show svTruthy (SVal.vStr ⟨durationIsoformat t⟩) = true
    simp [svTruthy, durationIsoformat, String.ext_iff])]
  rw [parseDuration_durationIsoformat t]
  rfl

theorem decode_encode_decimal (d : PyDecimal) (hne : d.digits ≠ [])
    (hlt : ∀ x ∈ d.digits, x < 10)
    (hlead : d.digits.head? = some 0 → d.digits = [0]) :
    decode (encode (.vDecimal d)) = some (.vDecimal d) := by
  rw [show encode (SVal.vDecimal d) = taggedEnvelope "Decimal" "decimal"
    (.jStr ⟨decimalStr d⟩) from rfl]
  rw [decode_taggedEnvelope]
  rw [show dispatchTag [("__class__", SVal.vStr "Decimal"),
      ("decimal", SVal.vStr ⟨decimalStr d⟩)] =
    decodeDecimal [("__class__", SVal.vStr "Decimal"),
      ("decimal", SVal.vStr ⟨decimalStr d⟩)] from rfl]
  unfold decodeDecimal
  rw [show lookupSV [("__class__", SVal.vStr "Decimal"),
      ("decimal", SVal.vStr ⟨decimalStr d⟩)] "decimal" =
    some (SVal.vStr ⟨decimalStr d⟩) from rfl]
  simp only
  rw [parseDecimal_decimalStr d hne hlt hlead]
  rfl

theorem decode_encode_bytes (bs : List Nat) (hb : ∀ x ∈ bs, x < 256) :
    decode (encode (.vBytes bs)) = some (.vBytes bs) := by
  rw [show encode (SVal.vBytes bs) = taggedEnvelope "bytes" "base64"
    (.jStr ⟨encodestring bs⟩) from rfl]
  rw [decode_taggedEnvelope]
  rw [show dispatchTag [("__class__", SVal.vStr "bytes"),
      ("base64", SVal.vStr ⟨encodestring bs⟩)] =
    decodeBytes [("__class__", SVal.vStr "bytes"),
      ("base64", SVal.vStr ⟨encodestring bs⟩)] from rfl]
  unfold decodeBytes
  rw [show lookupSV [("__class__", SVal.vStr "bytes"),
      ("base64", SVal.vStr ⟨encodestring bs⟩)] "base64" =
    some (SVal.vStr ⟨encodestring bs⟩) from rfl]
  simp only
  rw [decodestring_encodestring bs hb]
  rfl


/-- C4 is refuted as stated: the remote-record-reference namedtuple has no
registered encoder, so `json.dumps` serializes it as a plain JSON array
(a namedtuple is a tuple) and decoding yields a plain list, not a record
reference — `decode(encode(x)) ≠ x` for every record reference `x`. -/
theorem C4_record_reference_counterexample :
    decode (encode (SVal.vRecordRef "res.user" 1 (some "Admin"))) =
      some (SVal.vListCons (SVal.vStr "res.user") (SVal.vListCons (SVal.vInt 1)
        (SVal.vListCons (SVal.vStr "Admin") SVal.vListNil))) ∧
    SVal.vListCons (SVal.vStr "res.user") (SVal.vListCons (SVal.vInt 1)
        (SVal.vListCons (SVal.vStr "Admin") SVal.vListNil)) ≠
      SVal.vRecordRef "res.user" 1 (some "Admin") :=
  ⟨rfl, by decide⟩

/-- C4 (amended): `decode(encode(x)) == x` holds for the six kinds that
have both an encoder and a decoder registered — arbitrary-precision
decimal, calendar date, time-of-day, datetime, duration and binary data —
for every in-range value (digit lists, calendar fields within the widths
the formats print, microseconds below one second, bytes below 256); the
seventh kind of the claim, the remote-record reference, does not
round-trip (see the counterexample). -/
theorem C4_codec_roundtrip
    (d : PyDecimal) (hne : d.digits ≠ []) (hlt : ∀ x ∈ d.digits, x < 10)
    (hlead : d.digits.head? = some 0 → d.digits = [0])
    (y mo dy h mi s us : Nat) (t : Int) (bs : List Nat)
    (hy : y < 10000) (hmo : mo < 100) (hdy : dy < 100)
    (hh : h < 100) (hmi : mi < 100) (hs : s < 100) (hus : us < 1000000)
    (hb : ∀ x ∈ bs, x < 256) :
    decode (encode (.vDecimal d)) = some (.vDecimal d) ∧
    decode (encode (.vDate y mo dy)) = some (.vDate y mo dy) ∧
    decode (encode (.vTime h mi s us)) = some (.vTime h mi s us) ∧
    decode (encode (.vDatetime y mo dy h mi s us)) =
      some (.vDatetime y mo dy h mi s us) ∧
    decode (encode (.vTimedelta t)) = some (.vTimedelta t) ∧
    decode (encode (.vBytes bs)) = some (.vBytes bs) :=
  ⟨decode_encode_decimal d hne hlt hlead,
   decode_encode_date y mo dy hy hmo hdy,
   decode_encode_time h mi s us hh hmi hs hus,
   decode_encode_datetime y mo dy h mi s us hy hmo hdy hh hmi hs hus,
   decode_encode_timedelta t,
   decode_encode_bytes bs hb⟩

/-- Witness for C4 at concrete values: `-1.5`, `2024-02-29`,
`23:59:58.123456`, the same instant as a datetime, a negative duration of
one hour and one microsecond, and the bytes `[72, 10, 255]`. -/
theorem C4_codec_roundtrip_witness :
    decode (encode (.vDecimal ⟨true, [1, 5], -1⟩)) =
      some (.vDecimal ⟨true, [1, 5], -1⟩) ∧
    decode (encode (.vDate 2024 2 29)) = some (.vDate 2024 2 29) ∧
    decode (encode (.vTime 23 59 58 123456)) =
      some (.vTime 23 59 58 123456) ∧
    decode (encode (.vDatetime 2024 2 29 23 59 58 123456)) =
      some (.vDatetime 2024 2 29 23 59 58 123456) ∧
    decode (encode (.vTimedelta (-3600000001))) =
      some (.vTimedelta (-3600000001)) ∧
    decode (encode (.vBytes [72, 10, 255])) =
      some (.vBytes [72, 10, 255]) :=
  C4_codec_roundtrip ⟨true, [1, 5], -1⟩ (by decide) (by decide) (by decide)
    2024 2 29 23 59 58 123456 (-3600000001) [72, 10, 255]
    (by decide) (by decide) (by decide) (by decide) (by decide) (by decide)
    (by decide) (by decide)

end Fulfil
